import Mathlib

set_option maxHeartbeats 4000000
set_option maxRecDepth 4096

/-!
Verification of the beeb-mmb-tools container tool (src/main.py).

The program manipulates one binary container file ("MMB file"): an 8192-byte
header+catalog region (8-byte drive mapping, 8 reserved bytes, then 511
fixed 16-byte catalog records) followed by 511 payload slots of 200 KiB each.
This file embeds the byte-level file operations and each CLI action as pure
Lean functions over an explicit file-state model, and proves properties of
those functions.
-/

namespace MMB

/-- Model of an open binary file: `size` is its current length in bytes and
`data j` the byte stored at offset `j`.  Offsets that were never written hold
0, which matches the zero fill a positioned write past the end produces. -/
structure File where
  size : Nat
  data : Nat → Nat

/-- A fresh file of length 0 (what opening with mode wb yields). -/
def emptyFile : File := ⟨0, fun _ => 0⟩

/-- Write one byte `b` at offset `off`; the file grows to at least `off+1`. -/
def write1 (f : File) (off b : Nat) : File :=
  ⟨max f.size (off + 1), fun j => if j = off then b else f.data j⟩

/-- Write the byte list `bs` starting at offset `off`: one positioned
`f.write(bs)` of the source. -/
def writeBytes (f : File) (off : Nat) (bs : List Nat) : File :=
  match bs with
  | [] => f
  | b :: rest => writeBytes (write1 f off b) (off + 1) rest

/-- Read `n` bytes at offset `off`; like Python `f.read(n)` the result is
truncated at end of file. -/
def readBytes (f : File) (off n : Nat) : List Nat :=
  (List.range (min n (f.size - off))).map (fun k => f.data (off + k))

/-- Disk-slot status, decoded from the catalog status byte (source `Status`). -/
inductive Status where
  | INVALID
  | READONLY
  | READWRITE
  | UNFORMATTED
deriving DecidableEq

/-- Decode a status byte by range (source `parse_status`). -/
def parse_status (b : Nat) : Status :=
  if b = 0 then .READONLY
  else if 1 ≤ b ∧ b ≤ 127 then .READWRITE
  else if 128 ≤ b ∧ b ≤ 254 then .UNFORMATTED
  else .INVALID

/-- Canonical status byte written for each status (source `as_status`). -/
def as_status : Status → Nat
  | .INVALID => 255
  | .READONLY => 0
  | .READWRITE => 15
  | .UNFORMATTED => 240

/-- UTF-8 encoding of one Unicode code point, as a byte list.  Code points are
modelled as `Nat`; a Python `str` character is a scalar value, for which this
agrees with `str.encode` on utf-8 (lone surrogates, which Python would refuse
to encode, are given their three-byte pattern here and are excluded by
hypothesis wherever encoding success matters). -/
def utf8EncodeChar (c : Nat) : List Nat :=
  if c < 128 then [c]
  else if c < 2048 then [192 + c / 64, 128 + c % 64]
  else if c < 65536 then [224 + c / 4096, 128 + c / 64 % 64, 128 + c % 64]
  else [240 + c / 262144, 128 + c / 4096 % 64, 128 + c / 64 % 64, 128 + c % 64]

/-- UTF-8 encoding of a string of code points. -/
def utf8Encode : List Nat → List Nat
  | [] => []
  | c :: cs => utf8EncodeChar c ++ utf8Encode cs

/-- Continuation byte test for UTF-8 decoding. -/
def utf8IsCont (b : Nat) : Bool := 128 ≤ b && b < 192

/-- Code point of a 2-byte UTF-8 sequence. -/
def utf8Val2 (b b1 : Nat) : Nat := (b - 192) * 64 + (b1 - 128)

/-- Code point of a 3-byte UTF-8 sequence. -/
def utf8Val3 (b b1 b2 : Nat) : Nat := (b - 224) * 4096 + (b1 - 128) * 64 + (b2 - 128)

/-- Code point of a 4-byte UTF-8 sequence. -/
def utf8Val4 (b b1 b2 b3 : Nat) : Nat :=
  (b - 240) * 262144 + (b1 - 128) * 4096 + (b2 - 128) * 64 + (b3 - 128)

/-- Acceptance of a decoded 2-byte value: rejects overlong encodings. -/
def utf8Ok2 (b b1 : Nat) : Bool := decide (128 ≤ utf8Val2 b b1)

/-- Acceptance of a decoded 3-byte value: rejects overlong encodings and
surrogate code points. -/
def utf8Ok3 (b b1 b2 : Nat) : Bool :=
  decide (2048 ≤ utf8Val3 b b1 b2 ∧
    ¬ (55296 ≤ utf8Val3 b b1 b2 ∧ utf8Val3 b b1 b2 < 57344))

/-- Acceptance of a decoded 4-byte value: rejects overlong encodings and
values above 0x10FFFF. -/
def utf8Ok4 (b b1 b2 b3 : Nat) : Bool :=
  decide (65536 ≤ utf8Val4 b b1 b2 b3 ∧ utf8Val4 b b1 b2 b3 < 1114112)

/-- Strict UTF-8 decoding, recursion expressed through a fuel argument that
only ever decreases by one while at least one byte is consumed, so running
with fuel = length never exhausts it (utf8DecodeRun_congr below).  `none` on
any malformed input (what Python `bytes.decode` raises UnicodeDecodeError
on): stray continuation bytes, truncated sequences, overlong encodings,
surrogate code points and values above 0x10FFFF are all rejected. -/
def utf8DecodeRun : Nat → List Nat → Option (List Nat)
  | _, [] => some []
  | 0, _ :: _ => none
  | fuel + 1, b :: bs =>
    if b < 128 then (utf8DecodeRun fuel bs).map (fun t => b :: t)
    else if b < 192 then none
    else if b < 224 then
      match bs with
      | b1 :: bs1 =>
        if utf8IsCont b1 && utf8Ok2 b b1 then
          (utf8DecodeRun fuel bs1).map (fun t => utf8Val2 b b1 :: t)
        else none
      | [] => none
    else if b < 240 then
      match bs with
      | b1 :: b2 :: bs2 =>
        if utf8IsCont b1 && utf8IsCont b2 && utf8Ok3 b b1 b2 then
          (utf8DecodeRun fuel bs2).map (fun t => utf8Val3 b b1 b2 :: t)
        else none
      | _ => none
    else if b < 245 then
      match bs with
      | b1 :: b2 :: b3 :: bs3 =>
        if utf8IsCont b1 && utf8IsCont b2 && utf8IsCont b3 && utf8Ok4 b b1 b2 b3 then
          (utf8DecodeRun fuel bs3).map (fun t => utf8Val4 b b1 b2 b3 :: t)
        else none
      | _ => none
    else none

/-- Strict UTF-8 decoding of a byte list to code points. -/
def utf8Decode (bs : List Nat) : Option (List Nat) := utf8DecodeRun bs.length bs

/-- Bytes stripped from the right of a name field on read: the Python
`rstrip` set b' \t\n\r\x00' of source `parse_name`. -/
def stripByte (b : Nat) : Bool :=
  b = 32 || b = 9 || b = 10 || b = 13 || b = 0

/-- Drop trailing strip-set bytes (Python `bytes.rstrip`). -/
def rstripBytes (bs : List Nat) : List Nat :=
  (bs.reverse.dropWhile stripByte).reverse

/-- Source `parse_name`: strip trailing whitespace/null bytes then decode as
UTF-8 (`none` models the UnicodeDecodeError crash on undecodable bytes). -/
def parse_name (bs : List Nat) : Option (List Nat) :=
  utf8Decode (rstripBytes bs)

/-- Source `as_name`: truncate the name to 12 characters, pad with null
characters to 12 characters, then UTF-8 encode.  Note the truncation counts
characters, not encoded bytes. -/
def as_name (s : List Nat) : List Nat :=
  utf8Encode (s.take 12 ++ List.replicate (12 - (s.take 12).length) 0)

/-- One parsed catalog record (source namedtuple `Disk`). -/
structure Disk where
  name : List Nat
  status : Status
deriving DecidableEq

/-- Decoded status of catalog record `i`: the byte at offset 16 + i*16 + 15. -/
def slotStatus (f : File) (i : Nat) : Status :=
  parse_status (f.data (16 + i * 16 + 15))

/-- Parse `n` catalog records starting at record index `i` (the loop body of
source `read_catalog`): 12 name bytes, 3 padding bytes skipped, 1 status
byte per record.  `none` models the crash on an undecodable name field. -/
def read_entries (f : File) : Nat → Nat → Option (List Disk)
  | _, 0 => some []
  | i, n + 1 =>
    match parse_name (readBytes f (16 + i * 16) 12) with
    | none => none
    | some nm =>
      (read_entries f (i + 1) n).map
        (fun rest => (⟨nm, parse_status (f.data (16 + i * 16 + 15))⟩ : Disk) :: rest)

/-- Source `read_catalog`: 511 sequential records from offset 16.  When the
file is shorter than 8192 bytes some status read comes back empty and the
source crashes on `status[0]`; that case is modelled as `none` as well. -/
def read_catalog (f : File) : Option (List Disk) :=
  if 8192 ≤ f.size then read_entries f 0 511 else none

/-- Source `read_mapping`: 8 header bytes, low bytes 0-3 and high bytes 4-7
of the four mounted slot indices. -/
def read_mapping (f : File) : List Nat :=
  ((readBytes f 0 8).take 4).zip ((readBytes f 0 8).drop 4) |>.map
    (fun p => p.2 * 256 + p.1)

/-- Source `is_formatted`: a slot is in use when Locked (READONLY) or
Unlocked (READWRITE). -/
def is_formatted (d : Disk) : Bool :=
  decide (d.status = Status.READONLY ∨ d.status = Status.READWRITE)

/-- Failure modes.  Constructors mirror the `ensure` messages of the source;
`pyCrash` stands for an uncaught Python exception (IndexError from
`catalog[index]` on an out-of-range index, or the short-read / undecodable
name crashes inside `read_catalog`). -/
inductive Err where
  | fileExists
  | dupDisks
  | diskIs (i : Nat) (s : Status)
  | noFreeIndices
  | ssdEmpty
  | ssdTooLarge
  | indexOccupied (i : Nat)
  | noDiskIn (i : Nat)
  | pyCrash
deriving DecidableEq

/-- Source `mk_ensurer`: require the snapshot status to equal `req`. -/
def mk_ensurer (req : Status) : Nat → Disk → Option Err :=
  fun i d => if d.status = req then none else some (.diskIs i d.status)

/-- Source `mk_marker`: from the record base seek +15 and write the status. -/
def mk_marker (st : Status) : Nat → File → File :=
  fun i f => writeBytes f (16 + i * 16 + 15) [as_status st]

/-- The loop of source `visit`: the catalog was read once up front; each index
is checked against that snapshot (`catalog[index]`, IndexError when out of
range) and on success the per-index write is applied, in order.  The first
failure stops the loop, keeping the writes already made. -/
def visitGo (catalog : List Disk) (assertion : Nat → Disk → Option Err)
    (action : Nat → File → File) : File → List Nat → File × Option Err
  | f, [] => (f, none)
  | f, i :: rest =>
    match catalog.get? i with
    | none => (f, some .pyCrash)
    | some d =>
      match assertion i d with
      | some e => (f, some e)
      | none => visitGo catalog assertion action (action i f) rest

/-- Source `visit`: read the catalog once, then run the loop. -/
def visit (f : File) (indices : List Nat) (assertion : Nat → Disk → Option Err)
    (action : Nat → File → File) : File × Option Err :=
  match read_catalog f with
  | none => (f, some .pyCrash)
  | some catalog => visitGo catalog assertion action f indices

/-- Source `action_rm` (delete): requires READWRITE, writes UNFORMATTED. -/
def action_rm (f : File) (indices : List Nat) : File × Option Err :=
  visit f indices (mk_ensurer .READWRITE) (mk_marker .UNFORMATTED)

/-- Source `action_un` (undelete): requires UNFORMATTED, writes READWRITE. -/
def action_un (f : File) (indices : List Nat) : File × Option Err :=
  visit f indices (mk_ensurer .UNFORMATTED) (mk_marker .READWRITE)

/-- Source `action_ro` (lock): requires READWRITE, writes READONLY. -/
def action_ro (f : File) (indices : List Nat) : File × Option Err :=
  visit f indices (mk_ensurer .READWRITE) (mk_marker .READONLY)

/-- Source `action_rw` (unlock): requires READONLY, writes READWRITE. -/
def action_rw (f : File) (indices : List Nat) : File × Option Err :=
  visit f indices (mk_ensurer .READONLY) (mk_marker .READWRITE)

/-- Source `action_rn` (rename): requires READWRITE, writes the encoded name
at the record base. -/
def action_rn (f : File) (i : Nat) (name : List Nat) : File × Option Err :=
  visit f [i] (mk_ensurer .READWRITE) (fun i g => writeBytes g (16 + i * 16) (as_name name))

/-- The per-index status writes of source `action_nw`: iteration `n` writes
byte 0xF0 at offset 16 + n*16 + 15. -/
def nwLoop (f : File) : Nat → File
  | 0 => f
  | n + 1 => writeBytes (nwLoop f n) (16 + n * 16 + 15) [240]

/-- The container produced by source `action_nw` on a fresh path: drive
mapping 00 01 02 03, zero header padding, 511 status bytes 0xF0, and a final
zero byte forcing the full fixed length. -/
def nwFile : File :=
  writeBytes
    (nwLoop (writeBytes (writeBytes emptyFile 0 [0, 1, 2, 3, 0, 0, 0, 0]) 8
        [0, 0, 0, 0, 0, 0, 0, 0]) 511)
    (8192 + 511 * (200 * 1024) - 1) [0]

/-- Source `action_nw`: refuses to overwrite an existing file unless forced;
otherwise builds the fresh container. -/
def action_nw (already force : Bool) : Except Err File :=
  if already && !force then .error .fileExists else .ok nwFile

/-- Source `action_dd`: the four drive slot indices must be pairwise distinct;
the 8 mapping bytes (4 low then 4 high) are written at offset 0. -/
def action_dd (f : File) (d0 d1 d2 d3 : Nat) : File × Option Err :=
  if d0 ≠ d1 ∧ d0 ≠ d2 ∧ d0 ≠ d3 ∧ d1 ≠ d2 ∧ d1 ≠ d3 ∧ d2 ≠ d3 then
    (writeBytes f 0 [d0 % 256, d1 % 256, d2 % 256, d3 % 256,
        d0 / 256, d1 / 256, d2 / 256, d3 / 256], none)
  else (f, some .dupDisks)

/-- The four positioned writes of source `action_im`, in program order: the
encoded name at the record base, then (sequentially after it) three zero
padding bytes, then the status byte, then the payload at the slot's data
region.  Note the padding and status offsets depend on the encoded name's
length: the source writes them at whatever position the name write left. -/
def im_writes (i : Nat) (name : List Nat) (readonly : Bool) (ssd : List Nat) :
    List (Nat × List Nat) :=
  [(16 + i * 16, as_name name),
   (16 + i * 16 + (as_name name).length, [0, 0, 0]),
   (16 + i * 16 + (as_name name).length + 3, [if readonly then 0 else 15]),
   (8192 + i * (200 * 1024), ssd)]

/-- Apply a list of positioned writes in order. -/
def applyWrites (f : File) (ws : List (Nat × List Nat)) : File :=
  ws.foldl (fun g w => writeBytes g w.1 w.2) f

/-- Source `action_im` (import).  `idx` is the optional explicit slot index;
`ssd` the source file's bytes (its length is `os.path.getsize`); `name` the
optional explicit name and `defaultName` the name derived from the source
path's base name when none is given; `readonly` the lock flag.  Checks run in
source order: catalog read, index resolution (lowest non-formatted slot when
`idx` is omitted), the two size checks, then the occupied check; only then
are the four writes of `im_writes` applied. -/
def action_im (f : File) (idx : Option Nat) (ssd : List Nat)
    (name : Option (List Nat)) (defaultName : List Nat)
    (readonly force : Bool) : File × Option Err :=
  match read_catalog f with
  | none => (f, some .pyCrash)
  | some catalog =>
    match
      (match idx with
       | some i => Except.ok i
       | none =>
         match (List.range 511).filter
             (fun i => ! is_formatted (catalog.getD i ⟨[], .INVALID⟩)) with
         | [] => Except.error Err.noFreeIndices
         | i :: _ => Except.ok i) with
    | .error e => (f, some e)
    | .ok i =>
      if ssd.length = 0 then (f, some .ssdEmpty)
      else if 200 * 1024 < ssd.length then (f, some .ssdTooLarge)
      else
        match catalog.get? i with
        | none => (f, some .pyCrash)
        | some d =>
          if is_formatted d && !force then (f, some (.indexOccupied i))
          else (applyWrites f (im_writes i (name.getD defaultName) readonly ssd), none)

/-- Source `action_ex` (export) opens the container read-only and writes only
external .ssd files, so the container state is unchanged; its errors and the
exported bytes are outside the container model. -/
def action_ex (f : File) (_indices : List Nat) (_force : Bool) : File := f

/-- Source `action_cp` (copy): after the status checks, read the 200 KiB
source payload, write it at the destination payload region, then read the
full 16-byte source record and write it at the destination record. -/
def action_cp (f : File) (src dst : Nat) (force : Bool) : File × Option Err :=
  match read_catalog f with
  | none => (f, some .pyCrash)
  | some catalog =>
    match catalog.get? src with
    | none => (f, some .pyCrash)
    | some dsrc =>
      if ! is_formatted dsrc then (f, some (.noDiskIn src))
      else
        match catalog.get? dst with
        | none => (f, some .pyCrash)
        | some ddst =>
          if is_formatted ddst && !force then (f, some (.indexOccupied dst))
          else
            let f1 := writeBytes f (8192 + dst * (200 * 1024))
              (readBytes f (8192 + src * (200 * 1024)) (200 * 1024))
            (writeBytes f1 (16 + dst * 16) (readBytes f1 (16 + src * 16) 16), none)

/-- Source `action_mv` (move): copy, then delete the source slot; when the
copy raises, the delete never runs. -/
def action_mv (f : File) (src dst : Nat) (force : Bool) : File × Option Err :=
  match action_cp f src dst force with
  | (g, some e) => (g, some e)
  | (g, none) => action_rm g [src]

/-- Result of the argparse index validator (source `index`). -/
inductive IndexResult where
  | val (i : Nat)
  | errObj
deriving DecidableEq

/-- Source `index`: parses the argument as an integer and checks the bound.
Two slips are modelled faithfully: the bound check accepts 511 (`0 <= i <=
511`), and the out-of-range branch RETURNS the ValueError instead of raising
it, so argparse accepts a ValueError object as the parsed value (`errObj`). -/
def index (s : Int) : IndexResult :=
  if 0 ≤ s ∧ s ≤ 511 then .val s.toNat else .errObj

/-- Container states reachable from a fresh container through the tool's
actions, including the partially-written states a failed action leaves
behind.  The name hypotheses on rename and the import restrict names to
single-byte (ASCII) characters. -/
inductive Reachable : File → Prop where
  | nw : Reachable nwFile
  | dd (f d0 d1 d2 d3) : Reachable f → Reachable (action_dd f d0 d1 d2 d3).1
  | rm (f idxs) : Reachable f → Reachable (action_rm f idxs).1
  | un (f idxs) : Reachable f → Reachable (action_un f idxs).1
  | ro (f idxs) : Reachable f → Reachable (action_ro f idxs).1
  | rw (f idxs) : Reachable f → Reachable (action_rw f idxs).1
  | rn (f i name) (h : ∀ c ∈ name, c < 128) :
      Reachable f → Reachable (action_rn f i name).1
  | im (f idx ssd name defaultName readonly force)
      (h : ∀ c ∈ name.getD defaultName, c < 128) :
      Reachable f → Reachable (action_im f idx ssd name defaultName readonly force).1
  | cp (f src dst force) : Reachable f → Reachable (action_cp f src dst force).1
  | mv (f src dst force) : Reachable f → Reachable (action_mv f src dst force).1
  | ex (f idxs force) : Reachable f → Reachable (action_ex f idxs force)

/-- The fixed container length: 8192 header+catalog bytes plus 511 slots of
200 KiB. -/
def TOTAL : Nat := 8192 + 511 * (200 * 1024)

/-- The catalog of `f` parses (no slot's name field crashes UTF-8 decoding). -/
def catalogOK (f : File) : Prop := (read_catalog f).isSome = true

instance (f : File) : Decidable (catalogOK f) := by
  unfold catalogOK; infer_instance

theorem writeBytes_size (bs : List Nat) : ∀ (f : File) (off : Nat),
    (writeBytes f off bs).size =
      if bs.length = 0 then f.size else max f.size (off + bs.length) := by
  induction bs with
  | nil => intro f off; simp [writeBytes]
  | cons b rest ih =>
    intro f off
    simp only [writeBytes, ih, write1, List.length_cons]
    by_cases h : rest.length = 0 <;> simp [h] <;> omega

theorem writeBytes_data_out (bs : List Nat) : ∀ (f : File) (off j : Nat),
    j < off ∨ off + bs.length ≤ j → (writeBytes f off bs).data j = f.data j := by
  induction bs with
  | nil => intro f off j _; rfl
  | cons b rest ih =>
    intro f off j h
    simp only [List.length_cons] at h
    simp only [writeBytes]
    rw [ih _ (off + 1) j (by omega)]
    simp only [write1]
    rw [if_neg (by omega)]

theorem writeBytes_data_in (bs : List Nat) : ∀ (f : File) (off k : Nat),
    k < bs.length → (writeBytes f off bs).data (off + k) = bs.getD k 0 := by
  induction bs with
  | nil => intro f off k h; simp at h
  | cons b rest ih =>
    intro f off k h
    match k with
    | 0 =>
      simp only [writeBytes, List.getD]
      rw [writeBytes_data_out rest _ (off + 1) (off + 0) (by omega)]
      simp [write1]
    | k + 1 =>
      simp only [writeBytes]
      have : off + (k + 1) = (off + 1) + k := by omega
      rw [this, ih _ (off + 1) k (by simpa using h)]
      rfl

theorem readBytes_length (f : File) (off n : Nat) :
    (readBytes f off n).length = min n (f.size - off) := by
  simp [readBytes]

theorem readBytes_getD (f : File) (off n k : Nat) (h : k < min n (f.size - off)) :
    (readBytes f off n).getD k 0 = f.data (off + k) := by
  rw [List.getD_eq_getElem?_getD, readBytes]
  rw [List.getElem?_map, List.getElem?_range h]
  rfl

theorem readBytes_full_length (f : File) (off n : Nat) (h : off + n ≤ f.size) :
    (readBytes f off n).length = n := by
  rw [readBytes_length]; omega

theorem parse_as_status : ∀ s : Status, parse_status (as_status s) = s := by
  intro s; cases s <;> rfl

theorem isSome_of_map {α β : Type} (g : α → β) (o : Option α) :
    (o.map g).isSome = o.isSome := by
  cases o <;> rfl

theorem parse_name_zero (n : Nat) : parse_name (List.replicate n 0) = some [] := by
  have h : rstripBytes (List.replicate n 0) = [] := by
    simp only [rstripBytes, List.reverse_replicate]
    rw [List.dropWhile_eq_nil_iff.mpr]
    · rfl
    · intro x hx
      rw [List.eq_of_mem_replicate hx]
      rfl
  unfold parse_name
  rw [h]
  rfl

theorem read_entries_length (f : File) : ∀ (n i : Nat) (l : List Disk),
    read_entries f i n = some l → l.length = n := by
  intro n
  induction n with
  | zero => intro i l h; simp only [read_entries] at h; simp [← Option.some_inj.mp h]
  | succ n ih =>
    intro i l h
    simp only [read_entries] at h
    cases hp : parse_name (readBytes f (16 + i * 16) 12) with
    | none => rw [hp] at h; simp at h
    | some nm =>
      rw [hp] at h
      cases hr : read_entries f (i + 1) n with
      | none => rw [hr] at h; simp at h
      | some rest =>
        rw [hr] at h
        simp only [Option.map_some', Option.some.injEq] at h
        rw [← h, List.length_cons, ih (i + 1) rest hr]

theorem read_entries_get? (f : File) : ∀ (n i : Nat) (l : List Disk),
    read_entries f i n = some l → ∀ k, k < n →
      ∃ nm, l.get? k = some ⟨nm, slotStatus f (i + k)⟩ := by
  intro n
  induction n with
  | zero => intro i l _ k hk; omega
  | succ n ih =>
    intro i l h k hk
    simp only [read_entries] at h
    cases hp : parse_name (readBytes f (16 + i * 16) 12) with
    | none => rw [hp] at h; simp at h
    | some nm =>
      rw [hp] at h
      cases hr : read_entries f (i + 1) n with
      | none => rw [hr] at h; simp at h
      | some rest =>
        rw [hr] at h
        simp only [Option.map_some', Option.some.injEq] at h
        match k with
        | 0 =>
          refine ⟨nm, ?_⟩
          rw [← h]
          simp [slotStatus]
        | k + 1 =>
          obtain ⟨nm2, hnm2⟩ := ih (i + 1) rest hr k (by omega)
          refine ⟨nm2, ?_⟩
          rw [← h]
          simpa [show i + 1 + k = i + (k + 1) by omega] using hnm2

theorem read_entries_isSome (f : File) : ∀ (n i : Nat),
    (read_entries f i n).isSome = true ↔
      ∀ k, k < n → (parse_name (readBytes f (16 + (i + k) * 16) 12)).isSome = true := by
  intro n
  induction n with
  | zero => intro i; simp only [read_entries]; simp
  | succ n ih =>
    intro i
    simp only [read_entries]
    cases hp : parse_name (readBytes f (16 + i * 16) 12) with
    | none =>
      simp only [Option.isSome_none]
      constructor
      · intro h; exact absurd h (by simp)
      · intro h
        have := h 0 (by omega)
        simp only [Nat.add_zero] at this
        rw [hp] at this
        simpa using this
    | some nm =>
      rw [isSome_of_map]
      rw [ih (i + 1)]
      constructor
      · intro h k hk
        match k with
        | 0 => simp only [Nat.add_zero]; rw [hp]; rfl
        | k + 1 => simpa [show i + (k + 1) = i + 1 + k by omega] using h k (by omega)
      · intro h k hk
        have := h (k + 1) (by omega)
        simpa [show i + (k + 1) = i + 1 + k by omega] using this

theorem read_catalog_size {f : File} {l : List Disk}
    (h : read_catalog f = some l) : 8192 ≤ f.size := by
  by_contra hc
  simp [read_catalog, if_neg hc] at h

theorem read_catalog_length {f : File} {l : List Disk}
    (h : read_catalog f = some l) : l.length = 511 := by
  have h8 := read_catalog_size h
  rw [read_catalog, if_pos h8] at h
  exact read_entries_length f 511 0 l h

theorem read_catalog_get? {f : File} {l : List Disk}
    (h : read_catalog f = some l) {k : Nat} (hk : k < 511) :
    ∃ nm, l.get? k = some ⟨nm, slotStatus f k⟩ := by
  have h8 := read_catalog_size h
  rw [read_catalog, if_pos h8] at h
  simpa using read_entries_get? f 511 0 l h k hk

theorem read_catalog_get?_none {f : File} {l : List Disk}
    (h : read_catalog f = some l) {k : Nat} (hk : 511 ≤ k) :
    l.get? k = none := by
  rw [List.get?_eq_none]
  rw [read_catalog_length h]
  omega

theorem catalogOK_of_zero_names (f : File) (h8 : 8192 ≤ f.size)
    (hz : ∀ i, i < 511 → ∀ k, k < 12 → f.data (16 + i * 16 + k) = 0) :
    catalogOK f := by
  rw [catalogOK, read_catalog, if_pos h8]
  rw [read_entries_isSome]
  intro k hk
  have hfull : readBytes f (16 + (0 + k) * 16) 12 = List.replicate 12 0 := by
    rw [List.eq_replicate_iff]
    refine ⟨readBytes_full_length f _ 12 (by omega), ?_⟩
    intro b hb
    simp only [readBytes] at hb
    obtain ⟨j, hj, hjb⟩ := List.exists_of_mem_map hb
    rw [List.mem_range] at hj
    have hmin : min 12 (f.size - (16 + (0 + k) * 16)) = 12 := by omega
    rw [hmin] at hj
    rw [← hjb]
    simpa using hz k hk j hj
  rw [hfull, parse_name_zero]
  rfl

theorem catalogOK_elim {f : File} (h : catalogOK f) :
    ∃ l, read_catalog f = some l := by
  rw [catalogOK, Option.isSome_iff_exists] at h
  exact h

theorem nwLoop_size (f : File) : ∀ n, 1 ≤ n → (nwLoop f n).size = max f.size (16 * n + 16) := by
  intro n
  induction n with
  | zero => omega
  | succ n ih =>
    intro _
    simp only [nwLoop]
    rw [writeBytes_size]
    match n, ih with
    | 0, _ => simp [nwLoop]
    | n + 1, ih =>
      rw [ih (by omega)]
      simp only [List.length_cons, List.length_nil]
      rw [if_neg (by omega)]
      omega

theorem nwLoop_data_status (f : File) : ∀ n i, i < n →
    (nwLoop f n).data (16 + i * 16 + 15) = 240 := by
  intro n
  induction n with
  | zero => omega
  | succ n ih =>
    intro i hi
    simp only [nwLoop]
    by_cases h : i = n
    · subst h
      have hw := writeBytes_data_in [240] (nwLoop f i) (16 + i * 16 + 15) 0 (by simp)
      simpa using hw
    · rw [writeBytes_data_out [240] (nwLoop f n) (16 + n * 16 + 15) (16 + i * 16 + 15)
        (by simp only [List.length_cons, List.length_nil]; omega)]
      exact ih i (by omega)

theorem nwLoop_data_out (f : File) : ∀ n j, (∀ i, i < n → j ≠ 16 + i * 16 + 15) →
    (nwLoop f n).data j = f.data j := by
  intro n
  induction n with
  | zero => intro j _; rfl
  | succ n ih =>
    intro j hj
    simp only [nwLoop]
    rw [writeBytes_data_out [240] (nwLoop f n) (16 + n * 16 + 15) j
      (by simp only [List.length_cons, List.length_nil]; have := hj n (by omega); omega)]
    exact ih j (fun i hi => hj i (by omega))

theorem nwFile_size : nwFile.size = 8192 + 511 * (200 * 1024) := by
  unfold nwFile
  rw [writeBytes_size, nwLoop_size _ 511 (by omega), writeBytes_size, writeBytes_size]
  simp [emptyFile]

theorem nwFile_data_status (i : Nat) (hi : i < 511) :
    nwFile.data (16 + i * 16 + 15) = 240 := by
  unfold nwFile
  rw [writeBytes_data_out [0] _ (8192 + 511 * (200 * 1024) - 1) (16 + i * 16 + 15)
    (by simp only [List.length_cons, List.length_nil]; omega)]
  exact nwLoop_data_status _ 511 i hi

theorem nwFile_data_names (i : Nat) (hi : i < 511) (k : Nat) (hk : k < 12) :
    nwFile.data (16 + i * 16 + k) = 0 := by
  unfold nwFile
  rw [writeBytes_data_out [0] _ (8192 + 511 * (200 * 1024) - 1) (16 + i * 16 + k)
    (by simp only [List.length_cons, List.length_nil]; omega)]
  rw [nwLoop_data_out _ 511 (16 + i * 16 + k) (by intro j hj; omega)]
  rw [writeBytes_data_out [0, 0, 0, 0, 0, 0, 0, 0] _ 8 (16 + i * 16 + k)
    (by simp only [List.length_cons, List.length_nil]; omega)]
  rw [writeBytes_data_out [0, 1, 2, 3, 0, 0, 0, 0] emptyFile 0 (16 + i * 16 + k)
    (by simp only [List.length_cons, List.length_nil]; omega)]
  rfl

theorem catalogOK_nw : catalogOK nwFile :=
  catalogOK_of_zero_names nwFile (by rw [nwFile_size]; omega) nwFile_data_names

/-- A hand-built full-size container: every slot Empty (status byte 0xF0),
every other byte zero. -/
def emptyContainer : File :=
  ⟨TOTAL, fun j => if 31 ≤ j ∧ j ≤ 8191 ∧ j % 16 = 15 then 240 else 0⟩

/-- A full-size container whose slot 0 is Unlocked (status byte 0x0F) and all
other slots Empty. -/
def unlockedContainer : File :=
  ⟨TOTAL, fun j =>
    if j = 31 then 15 else if 31 ≤ j ∧ j ≤ 8191 ∧ j % 16 = 15 then 240 else 0⟩

/-- A full-size container whose slot 0 is Locked (status byte 0x00) and all
other slots Empty. -/
def lockedContainer : File :=
  ⟨TOTAL, fun j =>
    if j = 31 then 0 else if 31 ≤ j ∧ j ≤ 8191 ∧ j % 16 = 15 then 240 else 0⟩

/-- A full-size container whose slot 10 is Locked and all other slots Empty. -/
def lockedSrcContainer : File :=
  ⟨TOTAL, fun j =>
    if j = 191 then 0 else if 31 ≤ j ∧ j ≤ 8191 ∧ j % 16 = 15 then 240 else 0⟩

/-- A full-size container in which every slot is Unlocked (in use). -/
def fullContainer : File :=
  ⟨TOTAL, fun j => if 31 ≤ j ∧ j ≤ 8191 ∧ j % 16 = 15 then 15 else 0⟩

theorem catalogOK_emptyContainer : catalogOK emptyContainer := by
  refine catalogOK_of_zero_names _ (by unfold emptyContainer TOTAL; simp) ?_
  intro i hi k hk
  show (if _ then _ else 0) = 0
  rw [if_neg (by omega)]

theorem catalogOK_unlockedContainer : catalogOK unlockedContainer := by
  refine catalogOK_of_zero_names _ (by unfold unlockedContainer TOTAL; simp) ?_
  intro i hi k hk
  show (if _ then _ else if _ then _ else 0) = 0
  rw [if_neg (by omega), if_neg (by omega)]

theorem catalogOK_lockedContainer : catalogOK lockedContainer := by
  refine catalogOK_of_zero_names _ (by unfold lockedContainer TOTAL; simp) ?_
  intro i hi k hk
  show (if _ then _ else if _ then _ else 0) = 0
  rw [if_neg (by omega), if_neg (by omega)]

theorem catalogOK_lockedSrcContainer : catalogOK lockedSrcContainer := by
  refine catalogOK_of_zero_names _ (by unfold lockedSrcContainer TOTAL; simp) ?_
  intro i hi k hk
  show (if _ then _ else if _ then _ else 0) = 0
  rw [if_neg (by omega), if_neg (by omega)]

theorem catalogOK_fullContainer : catalogOK fullContainer := by
  refine catalogOK_of_zero_names _ (by unfold fullContainer TOTAL; simp) ?_
  intro i hi k hk
  show (if _ then _ else 0) = 0
  rw [if_neg (by omega)]

/-- The status-byte writes a successful marker batch performs, in order. -/
def applyMarks (st : Status) (f : File) (idxs : List Nat) : File :=
  idxs.foldl (fun g i => writeBytes g (16 + i * 16 + 15) [as_status st]) f

theorem visitGo_marks_ok (cat : List Disk) (req st : Status) :
    ∀ (idxs : List Nat) (g : File),
      (∀ i ∈ idxs, ∃ nm, cat.get? i = some ⟨nm, req⟩) →
      visitGo cat (mk_ensurer req) (mk_marker st) g idxs = (applyMarks st g idxs, none) := by
  intro idxs
  induction idxs with
  | nil => intro g _; rfl
  | cons i rest ih =>
    intro g h
    obtain ⟨nm, hget⟩ := h i (by simp)
    simp only [visitGo, hget, mk_ensurer, if_pos rfl]
    rw [ih (mk_marker st i g) (fun x hx => h x (by simp [hx]))]
    rfl

theorem visitGo_marks_fail (cat : List Disk) (req st : Status) :
    ∀ (idxs1 : List Nat) (j : Nat) (idxs2 : List Nat) (g : File) (d : Disk),
      (∀ i ∈ idxs1, ∃ nm, cat.get? i = some ⟨nm, req⟩) →
      cat.get? j = some d → d.status ≠ req →
      visitGo cat (mk_ensurer req) (mk_marker st) g (idxs1 ++ j :: idxs2) =
        (applyMarks st g idxs1, some (.diskIs j d.status)) := by
  intro idxs1
  induction idxs1 with
  | nil =>
    intro j idxs2 g d _ hj hne
    simp only [List.nil_append, visitGo, hj, mk_ensurer, if_neg hne]
    rfl
  | cons i rest ih =>
    intro j idxs2 g d h hj hne
    obtain ⟨nm, hget⟩ := h i (by simp)
    simp only [List.cons_append, visitGo, hget, mk_ensurer, eq_self_iff_true, if_true,
      List.append_eq]
    rw [ih j idxs2 (mk_marker st i g) d (fun x hx => h x (by simp [hx])) hj hne]
    rfl

/-- C2 (amended): in a container whose catalog parses, delete of an Unlocked
(READWRITE) slot succeeds, writes only the status byte 0xF0 and leaves the 12
name bytes and 3 padding bytes untouched; delete of a slot in any other
decoded status — Empty, but also Locked — fails with the disk-status error
before any write. -/
theorem c2_amended_delete (f : File) (i : Nat) (hcat : catalogOK f) (hi : i < 511) :
    (slotStatus f i = Status.READWRITE →
      action_rm f [i] = (writeBytes f (16 + i * 16 + 15) [240], none) ∧
      ∀ k, k < 15 → (action_rm f [i]).1.data (16 + i * 16 + k) = f.data (16 + i * 16 + k)) ∧
    (slotStatus f i ≠ Status.READWRITE →
      action_rm f [i] = (f, some (Err.diskIs i (slotStatus f i)))) := by
  obtain ⟨cat, hc⟩ := catalogOK_elim hcat
  obtain ⟨nm, hget⟩ := read_catalog_get? hc hi
  constructor
  · intro hrw
    have heq : action_rm f [i] = (writeBytes f (16 + i * 16 + 15) [240], none) := by
      simp only [action_rm, visit, hc]
      rw [visitGo_marks_ok cat Status.READWRITE Status.UNFORMATTED [i] f ?_]
      · rfl
      · intro x hx
        rw [List.mem_singleton] at hx
        subst hx
        exact ⟨nm, by rw [hget, hrw]⟩
    refine ⟨heq, ?_⟩
    intro k hk
    rw [heq]
    exact writeBytes_data_out [240] f (16 + i * 16 + 15) (16 + i * 16 + k) (by simp; omega)
  · intro hne
    simp only [action_rm, visit, hc]
    have : visitGo cat (mk_ensurer Status.READWRITE) (mk_marker Status.UNFORMATTED) f
        ([] ++ i :: []) = (applyMarks Status.UNFORMATTED f [], some (.diskIs i
          (⟨nm, slotStatus f i⟩ : Disk).status)) :=
      visitGo_marks_fail cat Status.READWRITE Status.UNFORMATTED [] i [] f _
        (by intro x hx; simp at hx) hget hne
    simpa [applyMarks] using this

/-- Witness for c2_amended_delete at a concrete container with slot 0
Unlocked: both branches of the conjunction are usable. -/
theorem c2_amended_delete_witness :
    catalogOK unlockedContainer ∧ 0 < 511 ∧
    ((slotStatus unlockedContainer 0 = Status.READWRITE →
      action_rm unlockedContainer [0] = (writeBytes unlockedContainer 31 [240], none) ∧
      ∀ k, k < 15 → (action_rm unlockedContainer [0]).1.data (16 + k) =
        unlockedContainer.data (16 + k)) ∧
    (slotStatus unlockedContainer 0 ≠ Status.READWRITE →
      action_rm unlockedContainer [0] =
        (unlockedContainer, some (Err.diskIs 0 (slotStatus unlockedContainer 0))))) :=
  ⟨catalogOK_unlockedContainer, by omega, by
    have h := c2_amended_delete unlockedContainer 0 catalogOK_unlockedContainer (by omega)
    simpa using h⟩

/-- C2 counterexample: in a container whose slot 0 decodes as Locked, delete
of slot 0 does not succeed: it raises the disk-status error and leaves the
status byte 0x00 (Locked) unchanged, refuting the claim that delete succeeds
for every Unlocked-or-Locked slot. -/
theorem c2_cex_delete_locked_fails :
    slotStatus lockedContainer 0 = Status.READONLY ∧
    (action_rm lockedContainer [0]).2 = some (Err.diskIs 0 Status.READONLY) ∧
    (action_rm lockedContainer [0]).1.data 31 = 0 := by
  obtain ⟨cat, hc⟩ := catalogOK_elim catalogOK_lockedContainer
  obtain ⟨nm, hget⟩ := read_catalog_get? hc (show 0 < 511 by omega)
  have hst : slotStatus lockedContainer 0 = Status.READONLY := by decide
  refine ⟨hst, ?_⟩
  have hrm : action_rm lockedContainer [0] =
      (lockedContainer, some (.diskIs 0 (slotStatus lockedContainer 0))) := by
    simp only [action_rm, visit, hc]
    have h2 := visitGo_marks_fail cat Status.READWRITE Status.UNFORMATTED [] 0 []
      lockedContainer _ (by intro x hx; simp at hx) hget
      (by rw [hst]; intro hcon; cases hcon)
    simpa [applyMarks] using h2
  rw [hrm, hst]
  exact ⟨rfl, by decide⟩

/-- C9: the index validator accepts 511 (its bound check is `0 <= i <= 511`)
even though only slots 0..510 exist, and merely returns — instead of raising
— the ValueError for other out-of-range values; an operation handed index
511 then reads the catalog and dies with an uncaught IndexError on
`catalog[511]` instead of failing with an index-out-of-range error before
any I/O. -/
theorem c9_index_511_accepted_then_crashes :
    index 511 = IndexResult.val 511 ∧
    index 512 = IndexResult.errObj ∧
    index (-1) = IndexResult.errObj ∧
    ∀ f : File, action_rm f [511] = (f, some Err.pyCrash) := by
  refine ⟨by decide, by decide, by decide, ?_⟩
  intro f
  simp only [action_rm, visit]
  cases hc : read_catalog f with
  | none => rfl
  | some cat =>
    have hnone : cat.get? 511 = none := read_catalog_get?_none hc (by omega)
    rw [List.get?_eq_getElem?] at hnone
    simp [visitGo, hnone]

/-- C10: the batched status operations (delete, lock, unlock, undelete all
instantiate `visit` with an ensurer and a marker) read the catalog once up
front, validate every index against that snapshot, and apply the status
writes in order; a failing index stops the batch, keeping the earlier writes
and performing none for the failing or later indices.  In particular the same
in-use index may appear twice in one delete batch: the second validation
still sees the snapshot status. -/
theorem c10_batch_snapshot_semantics (f : File) (req st : Status) (hcat : catalogOK f) :
    (∀ idxs : List Nat, (∀ i ∈ idxs, i < 511 ∧ slotStatus f i = req) →
      visit f idxs (mk_ensurer req) (mk_marker st) = (applyMarks st f idxs, none)) ∧
    (∀ (idxs1 : List Nat) (j : Nat) (idxs2 : List Nat),
      (∀ i ∈ idxs1, i < 511 ∧ slotStatus f i = req) →
      j < 511 → slotStatus f j ≠ req →
      visit f (idxs1 ++ j :: idxs2) (mk_ensurer req) (mk_marker st) =
        (applyMarks st f idxs1, some (.diskIs j (slotStatus f j)))) ∧
    (∀ i, i < 511 → slotStatus f i = Status.READWRITE →
      (action_rm f [i, i]).2 = none) := by
  obtain ⟨cat, hc⟩ := catalogOK_elim hcat
  have hmem : ∀ idxs : List Nat, (∀ i ∈ idxs, i < 511 ∧ slotStatus f i = req) →
      ∀ i ∈ idxs, ∃ nm, cat.get? i = some ⟨nm, req⟩ := by
    intro idxs h i hi
    obtain ⟨hlt, hst⟩ := h i hi
    obtain ⟨nm, hget⟩ := read_catalog_get? hc hlt
    exact ⟨nm, by rw [hget, hst]⟩
  refine ⟨?_, ?_, ?_⟩
  · intro idxs h
    simp only [visit, hc]
    exact visitGo_marks_ok cat req st idxs f (hmem idxs h)
  · intro idxs1 j idxs2 h hj hne
    simp only [visit, hc]
    obtain ⟨nm, hget⟩ := read_catalog_get? hc hj
    exact visitGo_marks_fail cat req st idxs1 j idxs2 f _ (hmem idxs1 h) hget hne
  · intro i hlt hst
    obtain ⟨nm, hget⟩ := read_catalog_get? hc hlt
    simp only [action_rm, visit, hc]
    rw [visitGo_marks_ok cat Status.READWRITE Status.UNFORMATTED [i, i] f ?_]
    · intro x hx
      rw [List.mem_cons, List.mem_singleton] at hx
      rcases hx with hx | hx <;> (subst hx; exact ⟨nm, by rw [hget, hst]⟩)

/-- Witness for c10_batch_snapshot_semantics: the duplicate-delete instance
on a concrete container with slot 0 Unlocked, and the failing-batch instance
with valid prefix `[0]` and failing index 1 (Empty). -/
theorem c10_batch_snapshot_semantics_witness :
    catalogOK unlockedContainer ∧
    (action_rm unlockedContainer [0, 0]).2 = none ∧
    visit unlockedContainer [0, 1] (mk_ensurer Status.READWRITE)
        (mk_marker Status.UNFORMATTED) =
      (applyMarks Status.UNFORMATTED unlockedContainer [0],
        some (.diskIs 1 (slotStatus unlockedContainer 1))) := by
  have h := c10_batch_snapshot_semantics unlockedContainer Status.READWRITE
    Status.UNFORMATTED catalogOK_unlockedContainer
  refine ⟨catalogOK_unlockedContainer, h.2.2 0 (by omega) (by decide), ?_⟩
  have h2 := h.2.1 [0] 1 [] (by intro i hi; rw [List.mem_singleton] at hi; subst hi
                                exact ⟨by omega, by decide⟩) (by omega) (by decide)
  simpa using h2

theorem nwFile_data_small (j : Nat) (hj : j < 8) :
    nwFile.data j = [0, 1, 2, 3, 0, 0, 0, 0].getD j 0 := by
  unfold nwFile
  rw [writeBytes_data_out [0] _ (8192 + 511 * (200 * 1024) - 1) j
    (by simp only [List.length_cons, List.length_nil]; omega)]
  rw [nwLoop_data_out _ 511 j (by intro i hi; omega)]
  rw [writeBytes_data_out [0, 0, 0, 0, 0, 0, 0, 0] _ 8 j
    (by simp only [List.length_cons, List.length_nil]; omega)]
  have := writeBytes_data_in [0, 1, 2, 3, 0, 0, 0, 0] emptyFile 0 j
    (by simp only [List.length_cons, List.length_nil]; omega)
  simpa using this

theorem nwFile_mapping : read_mapping nwFile = [0, 1, 2, 3] := by
  have hrb : readBytes nwFile 0 8 = [0, 1, 2, 3, 0, 0, 0, 0] := by
    have hmin : min 8 (nwFile.size - 0) = 8 := by rw [nwFile_size]; norm_num
    rw [readBytes, hmin]
    have h0 := nwFile_data_small 0 (by omega)
    have h1 := nwFile_data_small 1 (by omega)
    have h2 := nwFile_data_small 2 (by omega)
    have h3 := nwFile_data_small 3 (by omega)
    have h4 := nwFile_data_small 4 (by omega)
    have h5 := nwFile_data_small 5 (by omega)
    have h6 := nwFile_data_small 6 (by omega)
    have h7 := nwFile_data_small 7 (by omega)
    simp only [show List.range 8 = [0, 1, 2, 3, 4, 5, 6, 7] by rfl, List.map_cons,
      List.map_nil, Nat.zero_add, h0, h1, h2, h3, h4, h5, h6, h7]
    rfl
  rw [read_mapping, hrb]
  rfl

/-- C7: a successful create yields a container of exactly 8192 + 511*200*1024
bytes whose drive mapping reads [0, 1, 2, 3] and whose 511 catalog entries
all carry status byte 0xF0 and so decode as Empty. -/
theorem c7_create_container (already force : Bool) (f : File)
    (h : action_nw already force = .ok f) :
    f.size = 8192 + 511 * (200 * 1024) ∧
    read_mapping f = [0, 1, 2, 3] ∧
    ∀ i, i < 511 → f.data (16 + i * 16 + 15) = 240 ∧ slotStatus f i = Status.UNFORMATTED := by
  have hf : f = nwFile := by
    unfold action_nw at h
    by_cases hb : (already && !force) = true
    · rw [if_pos hb] at h; cases h
    · rw [if_neg hb] at h
      exact (Except.ok.inj h).symm
  subst hf
  refine ⟨nwFile_size, nwFile_mapping, ?_⟩
  intro i hi
  refine ⟨nwFile_data_status i hi, ?_⟩
  rw [slotStatus, nwFile_data_status i hi]
  rfl

/-- Witness for c7_create_container: create with no pre-existing file. -/
theorem c7_create_container_witness :
    action_nw false false = .ok nwFile ∧
    nwFile.size = 8192 + 511 * (200 * 1024) ∧
    read_mapping nwFile = [0, 1, 2, 3] ∧
    slotStatus nwFile 0 = Status.UNFORMATTED :=
  have h := c7_create_container false false nwFile rfl
  ⟨rfl, h.1, h.2.1, (h.2.2 0 (by omega)).2⟩

theorem utf8Encode_length_ascii (s : List Nat) (h : ∀ c ∈ s, c < 128) :
    (utf8Encode s).length = s.length := by
  induction s with
  | nil => rfl
  | cons c cs ih =>
    simp only [utf8Encode, List.length_append, List.length_cons]
    rw [utf8EncodeChar, if_pos (h c (by simp))]
    rw [ih (fun x hx => h x (by simp [hx]))]
    simp only [List.length_cons, List.length_nil]
    omega

theorem as_name_length_ascii (s : List Nat) (h : ∀ c ∈ s, c < 128) :
    (as_name s).length = 12 := by
  unfold as_name
  rw [utf8Encode_length_ascii]
  · rw [List.length_append, List.length_replicate]
    have := List.length_take_le 12 s
    omega
  · intro c hc
    rw [List.mem_append] at hc
    rcases hc with hc | hc
    · exact h c (List.mem_of_mem_take hc)
    · rw [List.eq_of_mem_replicate hc]; omega

/-- Success path of the import: all checks passed, the four writes of
`im_writes` are applied. -/
theorem action_im_success (f : File) (cat : List Disk) (i : Nat) (ssd : List Nat)
    (name : Option (List Nat)) (defaultName : List Nat) (readonly force : Bool)
    (hc : read_catalog f = some cat) (d : Disk) (hget : cat.get? i = some d)
    (hok : (is_formatted d && !force) = false)
    (h1 : ssd.length ≠ 0) (h2 : ¬ 200 * 1024 < ssd.length) :
    action_im f (some i) ssd name defaultName readonly force =
      (applyWrites f (im_writes i (name.getD defaultName) readonly ssd), none) := by
  have hcond : ¬ ((is_formatted d && !force) = true) := by simp [hok]
  simp only [action_im, hc, if_neg h1, if_neg h2, hget, if_neg hcond]

/-- C1 counterexample: importing a one-byte disk into Empty slot 0 of a
full-size container, the source applies its four writes in `im_writes` order;
after the first three (name, padding, status) — a genuine intermediate point
of the write sequence, before the payload write, which is the fourth — the
slot's status byte already decodes as Unlocked, not Empty, while the payload
region still holds the old bytes.  This refutes the claim that the payload
write completes before any write that moves the status out of Empty. -/
theorem c1_cex_status_write_precedes_payload :
    action_im emptyContainer (some 0) [1] (some [65]) [65] false false =
      (applyWrites emptyContainer (im_writes 0 [65] false [1]), none) ∧
    slotStatus (applyWrites emptyContainer ((im_writes 0 [65] false [1]).take 3)) 0 =
      Status.READWRITE ∧
    (applyWrites emptyContainer ((im_writes 0 [65] false [1]).take 3)).data 8192 =
      emptyContainer.data 8192 ∧
    (im_writes 0 [65] false [1]).get? 3 = some (8192, [1]) := by
  obtain ⟨cat, hc⟩ := catalogOK_elim catalogOK_emptyContainer
  obtain ⟨nm, hget⟩ := read_catalog_get? hc (show 0 < 511 by omega)
  have hst : slotStatus emptyContainer 0 = Status.UNFORMATTED := by decide
  refine ⟨?_, by decide, by decide, by decide⟩
  refine action_im_success emptyContainer cat 0 [1] (some [65]) [65] false false hc
    ⟨nm, slotStatus emptyContainer 0⟩ hget ?_ (by decide) (by decide)
  rw [hst]
  rfl

/-- C1 (amended): with an ASCII name, a successful import performs its four
writes in `im_writes` order, placing the complete catalog record (name,
padding, status byte) BEFORE the payload write: after the first three writes
the slot already decodes as Locked or Unlocked per the lock flag while its
whole 200 KiB payload region still holds the pre-import bytes.  The crash
window therefore exposes the slot as in use with stale payload — the reverse
of the ordering the claim states. -/
theorem c1_amended_catalog_before_payload (f : File) (i : Nat)
    (ssd name : List Nat) (readonly force : Bool)
    (hcat : catalogOK f) (hi : i < 511)
    (hascii : ∀ c ∈ name, c < 128)
    (hempty : slotStatus f i = Status.UNFORMATTED)
    (h1 : ssd.length ≠ 0) (h2 : ¬ 200 * 1024 < ssd.length) :
    action_im f (some i) ssd (some name) name readonly force =
      (applyWrites f (im_writes i name readonly ssd), none) ∧
    slotStatus (applyWrites f ((im_writes i name readonly ssd).take 3)) i =
      (if readonly then Status.READONLY else Status.READWRITE) ∧
    ∀ k, k < 200 * 1024 →
      (applyWrites f ((im_writes i name readonly ssd).take 3)).data
          (8192 + i * (200 * 1024) + k) =
        f.data (8192 + i * (200 * 1024) + k) := by
  obtain ⟨cat, hc⟩ := catalogOK_elim hcat
  obtain ⟨nm, hget⟩ := read_catalog_get? hc hi
  rw [hempty] at hget
  have hlen := as_name_length_ascii name hascii
  have hsucc := action_im_success f cat i ssd (some name) name readonly force hc
    ⟨nm, Status.UNFORMATTED⟩ hget (by simp [is_formatted]) h1 h2
  have happ : applyWrites f ((im_writes i name readonly ssd).take 3) =
      writeBytes (writeBytes (writeBytes f (16 + i * 16) (as_name name))
        (16 + i * 16 + 12) [0, 0, 0]) (16 + i * 16 + 15)
        [if readonly then 0 else 15] := by
    simp only [im_writes, hlen, applyWrites, List.take, List.foldl]
  refine ⟨by simpa using hsucc, ?_, ?_⟩
  · rw [happ, slotStatus]
    have hin := writeBytes_data_in [if readonly then 0 else 15]
      (writeBytes (writeBytes f (16 + i * 16) (as_name name)) (16 + i * 16 + 12) [0, 0, 0])
      (16 + i * 16 + 15) 0 (by simp)
    simp only [Nat.add_zero] at hin
    rw [hin]
    cases readonly <;> rfl
  · intro k hk
    rw [happ]
    rw [writeBytes_data_out [if readonly then 0 else 15] _ (16 + i * 16 + 15)
      (8192 + i * (200 * 1024) + k) (by simp only [List.length_cons, List.length_nil]; omega)]
    rw [writeBytes_data_out [0, 0, 0] _ (16 + i * 16 + 12)
      (8192 + i * (200 * 1024) + k) (by simp only [List.length_cons, List.length_nil]; omega)]
    rw [writeBytes_data_out (as_name name) f (16 + i * 16)
      (8192 + i * (200 * 1024) + k) (by rw [hlen]; omega)]

/-- Witness for c1_amended_catalog_before_payload: import of a one-byte
source named "B" into Empty slot 5 of a concrete container, locked. -/
theorem c1_amended_catalog_before_payload_witness :
    catalogOK emptyContainer ∧ 5 < 511 ∧ (∀ c ∈ [66], c < 128) ∧
    slotStatus emptyContainer 5 = Status.UNFORMATTED ∧
    action_im emptyContainer (some 5) [7] (some [66]) [66] true false =
      (applyWrites emptyContainer (im_writes 5 [66] true [7]), none) ∧
    slotStatus (applyWrites emptyContainer ((im_writes 5 [66] true [7]).take 3)) 5 =
      Status.READONLY ∧
    (applyWrites emptyContainer ((im_writes 5 [66] true [7]).take 3)).data
        (8192 + 5 * (200 * 1024)) =
      emptyContainer.data (8192 + 5 * (200 * 1024)) := by
  have h := c1_amended_catalog_before_payload emptyContainer 5 [7] [66] true false
    catalogOK_emptyContainer (by omega) (by decide) (by decide) (by decide) (by decide)
  refine ⟨catalogOK_emptyContainer, by omega, by decide, by decide, h.1, by simpa using h.2.1, ?_⟩
  have h3 := h.2.2 0 (by omega)
  simpa using h3

/-- Size-check behaviour of an import whose slot index resolved to `i`. -/
theorem action_im_size_core (f : File) (cat : List Disk) (hc : read_catalog f = some cat)
    (i : Nat) (ssd : List Nat) (name : Option (List Nat)) (dn : List Nat) (ro fo : Bool) :
    ((action_im f (some i) ssd name dn ro fo).2 = some Err.ssdEmpty ↔ ssd.length = 0) ∧
    ((action_im f (some i) ssd name dn ro fo).2 = some Err.ssdTooLarge ↔
      200 * 1024 < ssd.length) ∧
    (ssd.length = 0 ∨ 200 * 1024 < ssd.length →
      (action_im f (some i) ssd name dn ro fo).1 = f) := by
  by_cases h0 : ssd.length = 0
  · simp only [action_im, hc, if_pos h0]
    refine ⟨by simp [h0], ?_, by simp⟩
    constructor
    · intro hcon; simp at hcon
    · intro hcon; omega
  · by_cases hL : 200 * 1024 < ssd.length
    · simp only [action_im, hc, if_neg h0, if_pos hL]
      refine ⟨by simp [h0], by simp [hL], by simp⟩
    · simp only [action_im, hc, if_neg h0, if_neg hL]
      cases hget : cat.get? i with
      | none =>
        simp only [hget]
        refine ⟨by simp [h0], by simp [hL], fun hd => by omega⟩
      | some d =>
        simp only [hget]
        by_cases hocc : (is_formatted d && !fo) = true
        · rw [if_pos hocc]
          refine ⟨by simp [h0], by simp [hL], fun hd => by omega⟩
        · rw [if_neg hocc]
          refine ⟨by simp [h0], by simp [hL], fun hd => by omega⟩

/-- When the import's index is omitted and the first free index is `i0`,
the import proceeds exactly as with explicit index `i0`. -/
theorem action_im_auto_eq (f : File) (cat : List Disk) (hc : read_catalog f = some cat)
    (i0 : Nat) (rest : List Nat)
    (hfil : (List.range 511).filter
        (fun i => ! is_formatted (cat.getD i ⟨[], .INVALID⟩)) = i0 :: rest)
    (ssd : List Nat) (name : Option (List Nat)) (dn : List Nat) (ro fo : Bool) :
    action_im f none ssd name dn ro fo = action_im f (some i0) ssd name dn ro fo := by
  simp only [action_im, hc, hfil]

/-- C8 (amended): provided the catalog parses and the target index resolves —
an explicit index was supplied, or a free (non-in-use) slot exists for
auto-selection — the import fails with the empty-source error exactly when the
source length is 0, with the too-large error exactly when the length exceeds
200 KiB (so a source of exactly 200 KiB passes both checks), and any
size-check failure leaves every byte of the container unwritten.  Without the
proviso, auto-selection on a full container raises the no-free-indices error
first, even for an empty source. -/
theorem c8_amended_size_checks (f : File) (idx : Option Nat) (ssd : List Nat)
    (name : Option (List Nat)) (defaultName : List Nat) (readonly force : Bool)
    (hcat : catalogOK f)
    (hres : idx = none → ∃ j, j < 511 ∧
      slotStatus f j ≠ Status.READONLY ∧ slotStatus f j ≠ Status.READWRITE) :
    ((action_im f idx ssd name defaultName readonly force).2 = some Err.ssdEmpty ↔
      ssd.length = 0) ∧
    ((action_im f idx ssd name defaultName readonly force).2 = some Err.ssdTooLarge ↔
      200 * 1024 < ssd.length) ∧
    (ssd.length = 0 ∨ 200 * 1024 < ssd.length →
      (action_im f idx ssd name defaultName readonly force).1 = f) := by
  obtain ⟨cat, hc⟩ := catalogOK_elim hcat
  cases idx with
  | some i => exact action_im_size_core f cat hc i ssd name defaultName readonly force
  | none =>
    cases hfil : (List.range 511).filter
        (fun i => ! is_formatted (cat.getD i ⟨[], .INVALID⟩)) with
    | nil =>
      exfalso
      obtain ⟨j, hj, hro, hrw⟩ := hres rfl
      obtain ⟨nm, hget⟩ := read_catalog_get? hc hj
      have hmem := List.filter_eq_nil_iff.mp hfil j (List.mem_range.mpr hj)
      have hgetD : cat.getD j ⟨[], .INVALID⟩ = ⟨nm, slotStatus f j⟩ := by
        rw [List.getD_eq_getElem?_getD, ← List.get?_eq_getElem?, hget]
        rfl
      rw [hgetD] at hmem
      have htrue : is_formatted ⟨nm, slotStatus f j⟩ = true := by
        cases hbool : is_formatted ⟨nm, slotStatus f j⟩ with
        | true => rfl
        | false => exact absurd (by rw [hbool]; rfl) hmem
      simp only [is_formatted, decide_eq_true_eq] at htrue
      rcases htrue with h | h
      · exact hro h
      · exact hrw h
    | cons i0 rest =>
      rw [action_im_auto_eq f cat hc i0 rest hfil ssd name defaultName readonly force]
      exact action_im_size_core f cat hc i0 ssd name defaultName readonly force

/-- C8 counterexample: with auto-selection on a container whose 511 slots are
all in use, an import of an EMPTY source fails with the no-free-indices
error, not the empty-source error: index resolution runs before the size
checks, so the claim's "fails with EmptySource exactly when the source length
is 0" does not hold for that invocation. -/
theorem c8_cex_no_free_slots_masks_empty_source :
    ([] : List Nat).length = 0 ∧
    (action_im fullContainer none [] none [] false false).2 = some Err.noFreeIndices ∧
    (action_im fullContainer none [] none [] false false).2 ≠ some Err.ssdEmpty := by
  obtain ⟨cat, hc⟩ := catalogOK_elim catalogOK_fullContainer
  have hall : ∀ x ∈ List.range 511,
      ¬((! is_formatted (cat.getD x ⟨[], .INVALID⟩)) = true) := by
    intro x hx
    rw [List.mem_range] at hx
    obtain ⟨nm, hget⟩ := read_catalog_get? hc hx
    have hst : slotStatus fullContainer x = Status.READWRITE := by
      rw [slotStatus]
      have hdata : fullContainer.data (16 + x * 16 + 15) = 15 := by
        show (if 31 ≤ 16 + x * 16 + 15 ∧ 16 + x * 16 + 15 ≤ 8191 ∧
            (16 + x * 16 + 15) % 16 = 15 then 15 else 0) = 15
        rw [if_pos (by omega)]
      rw [hdata]
      rfl
    rw [hst] at hget
    have hgetD : cat.getD x ⟨[], .INVALID⟩ = ⟨nm, Status.READWRITE⟩ := by
      rw [List.getD_eq_getElem?_getD, ← List.get?_eq_getElem?, hget]
      rfl
    rw [hgetD]
    simp [is_formatted]
  have hfil : (List.range 511).filter
      (fun i => ! is_formatted (cat.getD i ⟨[], .INVALID⟩)) = [] :=
    List.filter_eq_nil_iff.mpr hall
  refine ⟨rfl, ?_, ?_⟩
  · simp only [action_im, hc, hfil]
  · simp only [action_im, hc, hfil]
    simp

/-- C5: `as_name` does not always produce 12 bytes.  On the 12-character name
made of twelve copies of U+00E9 (two UTF-8 bytes each) it produces 24 bytes:
truncation counts characters BEFORE encoding.  Byte 15 of the encoded name
(value 0xA9) therefore lands on the record's status byte, and the subsequent
padding and status writes of the import land at offsets 40..43, inside the
NEXT record.  Only for single-byte (ASCII) names is the field exactly 12
bytes. -/
theorem c5_as_name_not_12_bytes :
    (as_name (List.replicate 12 233)).length = 24 ∧
    (as_name (List.replicate 12 233)).getD 15 0 = 169 ∧
    ((im_writes 0 (List.replicate 12 233) false [1]).getD 2 (0, [])).1 = 43 ∧
    ∀ s : List Nat, (∀ c ∈ s, c < 128) → (as_name s).length = 12 :=
  ⟨by decide, by decide, by decide, as_name_length_ascii⟩

theorem utf8Encode_append (s t : List Nat) :
    utf8Encode (s ++ t) = utf8Encode s ++ utf8Encode t := by
  induction s with
  | nil => rfl
  | cons c cs ih =>
    simp only [List.cons_append, utf8Encode, List.append_eq, ih, List.append_assoc]

theorem utf8Encode_replicate_zero (n : Nat) :
    utf8Encode (List.replicate n 0) = List.replicate n 0 := by
  induction n with
  | zero => rfl
  | succ n ih =>
    simp only [List.replicate_succ, utf8Encode, ih]
    rfl

theorem dropWhile_replicate_zero_append (n : Nat) (t : List Nat) :
    (List.replicate n 0 ++ t).dropWhile stripByte = t.dropWhile stripByte := by
  induction n with
  | zero => rfl
  | succ n ih =>
    simp only [List.replicate_succ, List.cons_append, List.dropWhile_cons]
    rw [show stripByte 0 = true from rfl]
    simpa using ih

theorem rstripBytes_append_zeros (xs : List Nat) (n : Nat) :
    rstripBytes (xs ++ List.replicate n 0) = rstripBytes xs := by
  unfold rstripBytes
  rw [List.reverse_append, List.reverse_replicate, dropWhile_replicate_zero_append]

theorem rstripBytes_concat_keep (xs : List Nat) (z : Nat)
    (hz : stripByte z = false) : rstripBytes (xs ++ [z]) = xs ++ [z] := by
  unfold rstripBytes
  rw [List.reverse_append]
  simp only [List.reverse_cons, List.reverse_nil, List.nil_append, List.singleton_append]
  rw [List.dropWhile_cons, if_neg (by simp [hz])]
  rw [List.reverse_cons, List.reverse_reverse]

theorem utf8EncodeChar_last_not_strip (c : Nat) (h : stripByte c = false) :
    ∃ ys z, utf8EncodeChar c = ys ++ [z] ∧ stripByte z = false := by
  unfold utf8EncodeChar
  by_cases h1 : c < 128
  · rw [if_pos h1]
    exact ⟨[], c, rfl, h⟩
  · rw [if_neg h1]
    have hz : stripByte (128 + c % 64) = false := by
      simp only [stripByte]
      simp only [Bool.or_eq_false_iff, decide_eq_false_iff_not]
      omega
    by_cases h2 : c < 2048
    · rw [if_pos h2]
      exact ⟨[192 + c / 64], 128 + c % 64, rfl, hz⟩
    · rw [if_neg h2]
      by_cases h3 : c < 65536
      · rw [if_pos h3]
        exact ⟨[224 + c / 4096, 128 + c / 64 % 64], 128 + c % 64, rfl, hz⟩
      · rw [if_neg h3]
        exact ⟨[240 + c / 262144, 128 + c / 4096 % 64, 128 + c / 64 % 64],
          128 + c % 64, rfl, hz⟩

theorem utf8DecodeRun_congr : ∀ (n : Nat), ∀ (m : Nat) (bs : List Nat),
    bs.length ≤ n → bs.length ≤ m → utf8DecodeRun n bs = utf8DecodeRun m bs := by
  intro n
  induction n with
  | zero =>
    intro m bs h1 _
    match bs, h1 with
    | [], _ => cases m <;> rfl
  | succ n ih =>
    intro m bs h1 h2
    match bs, m, h2 with
    | [], m, _ => cases m <;> rfl
    | b :: bs2, m + 1, h2 =>
      simp only [List.length_cons] at h1 h2
      simp only [utf8DecodeRun]
      by_cases hb1 : b < 128
      · rw [if_pos hb1, if_pos hb1, ih m bs2 (by omega) (by omega)]
      · rw [if_neg hb1, if_neg hb1]
        by_cases hb2 : b < 192
        · rw [if_pos hb2, if_pos hb2]
        · rw [if_neg hb2, if_neg hb2]
          by_cases hb3 : b < 224
          · rw [if_pos hb3, if_pos hb3]
            rcases bs2 with _ | ⟨b1, bs1⟩
            · rfl
            · simp only [List.length_cons] at h1 h2
              by_cases hc : (utf8IsCont b1 && utf8Ok2 b b1) = true
              · simp only [if_pos hc, ih m bs1 (by omega) (by omega)]
              · simp only [if_neg hc]
          · rw [if_neg hb3, if_neg hb3]
            by_cases hb4 : b < 240
            · rw [if_pos hb4, if_pos hb4]
              rcases bs2 with _ | ⟨b1, _ | ⟨b2, bs2⟩⟩
              · rfl
              · rfl
              · simp only [List.length_cons] at h1 h2
                by_cases hc : (utf8IsCont b1 && utf8IsCont b2 && utf8Ok3 b b1 b2) = true
                · simp only [if_pos hc, ih m bs2 (by omega) (by omega)]
                · simp only [if_neg hc]
            · rw [if_neg hb4, if_neg hb4]
              by_cases hb5 : b < 245
              · rw [if_pos hb5, if_pos hb5]
                rcases bs2 with _ | ⟨b1, _ | ⟨b2, _ | ⟨b3, bs3⟩⟩⟩
                · rfl
                · rfl
                · rfl
                · simp only [List.length_cons] at h1 h2
                  by_cases hc : (utf8IsCont b1 && utf8IsCont b2 && utf8IsCont b3 &&
                      utf8Ok4 b b1 b2 b3) = true
                  · simp only [if_pos hc, ih m bs3 (by omega) (by omega)]
                  · simp only [if_neg hc]
              · rw [if_neg hb5, if_neg hb5]

theorem utf8Decode_encodeChar (c : Nat) (hlt : c < 1114112)
    (hsur : c < 55296 ∨ 57344 ≤ c) (rest : List Nat) :
    utf8Decode (utf8EncodeChar c ++ rest) = (utf8Decode rest).map (fun t => c :: t) := by
  by_cases h1 : c < 128
  · rw [utf8EncodeChar, if_pos h1, List.cons_append, List.nil_append]
    show utf8DecodeRun (c :: rest).length (c :: rest) = _
    simp only [List.length_cons, utf8DecodeRun]
    rw [if_pos h1]
    rfl
  · by_cases h2 : c < 2048
    · rw [utf8EncodeChar, if_neg h1, if_pos h2]
      simp only [List.cons_append, List.nil_append]
      show utf8DecodeRun _ _ = _
      simp only [List.length_cons, utf8DecodeRun]
      rw [if_neg (by omega), if_neg (by omega), if_pos (by omega)]
      rw [if_pos (by
        simp only [utf8IsCont, utf8Ok2, utf8Val2, Bool.and_eq_true, decide_eq_true_eq]
        omega)]
      rw [utf8DecodeRun_congr (rest.length + 1) rest.length rest (by omega) (by omega)]
      have hval : utf8Val2 (192 + c / 64) (128 + c % 64) = c := by
        simp only [utf8Val2]; omega
      rw [hval]
      rfl
    · by_cases h3 : c < 65536
      · rw [utf8EncodeChar, if_neg h1, if_neg h2, if_pos h3]
        simp only [List.cons_append, List.nil_append]
        show utf8DecodeRun _ _ = _
        simp only [List.length_cons, utf8DecodeRun]
        rw [if_neg (by omega), if_neg (by omega), if_neg (by omega), if_pos (by omega)]
        rw [if_pos (by
          simp only [utf8IsCont, utf8Ok3, utf8Val3, Bool.and_eq_true, decide_eq_true_eq]
          omega)]
        rw [utf8DecodeRun_congr (rest.length + 1 + 1) rest.length rest (by omega) (by omega)]
        have hval : utf8Val3 (224 + c / 4096) (128 + c / 64 % 64) (128 + c % 64) = c := by
          simp only [utf8Val3]; omega
        rw [hval]
        rfl
      · rw [utf8EncodeChar, if_neg h1, if_neg h2, if_neg h3]
        simp only [List.cons_append, List.nil_append]
        show utf8DecodeRun _ _ = _
        simp only [List.length_cons, utf8DecodeRun]
        rw [if_neg (by omega), if_neg (by omega), if_neg (by omega), if_neg (by omega),
          if_pos (by omega)]
        rw [if_pos (by
          simp only [utf8IsCont, utf8Ok4, utf8Val4, Bool.and_eq_true, decide_eq_true_eq]
          omega)]
        rw [utf8DecodeRun_congr (rest.length + 1 + 1 + 1) rest.length rest (by omega)
          (by omega)]
        have hval : utf8Val4 (240 + c / 262144) (128 + c / 4096 % 64) (128 + c / 64 % 64)
            (128 + c % 64) = c := by
          simp only [utf8Val4]; omega
        rw [hval]
        rfl

theorem utf8Decode_encode (s : List Nat)
    (h : ∀ c ∈ s, c < 1114112 ∧ (c < 55296 ∨ 57344 ≤ c)) :
    utf8Decode (utf8Encode s) = some s := by
  induction s with
  | nil => rfl
  | cons c cs ih =>
    simp only [utf8Encode]
    rw [utf8Decode_encodeChar c (h c (by simp)).1 (h c (by simp)).2]
    rw [ih (fun x hx => h x (by simp [hx]))]
    rfl

/-- C6 (amended): for a name of at most 12 Unicode scalar characters with no
NUL, TAB, LF or CR anywhere and whose LAST character is not a space, decoding
the encoded name field returns the name unchanged.  (Without the last
condition a trailing space is stripped on read, see the counterexample.) -/
theorem c6_amended_name_roundtrip (s : List Nat)
    (hlen : s.length ≤ 12)
    (hval : ∀ c ∈ s, c < 1114112 ∧ (c < 55296 ∨ 57344 ≤ c))
    (hforbid : ∀ c ∈ s, c ≠ 0 ∧ c ≠ 9 ∧ c ≠ 10 ∧ c ≠ 13)
    (hlast : ∀ c, s.getLast? = some c → c ≠ 32) :
    parse_name (as_name s) = some s := by
  have htake : s.take 12 = s := List.take_of_length_le hlen
  unfold as_name parse_name
  rw [htake, utf8Encode_append, utf8Encode_replicate_zero, rstripBytes_append_zeros]
  rcases List.eq_nil_or_concat s with hnil | ⟨s2, c, hcon⟩
  · subst hnil
    rfl
  · rw [List.concat_eq_append] at hcon
    subst hcon
    have hcmem : c ∈ s2 ++ [c] := by simp
    have hsb : stripByte c = false := by
      obtain ⟨hc0, hc9, hc10, hc13⟩ := hforbid c hcmem
      have hc32 : c ≠ 32 := hlast c (by rw [List.getLast?_concat])
      simp only [stripByte]
      simp only [Bool.or_eq_false_iff, decide_eq_false_iff_not]
      exact ⟨⟨⟨⟨hc32, hc9⟩, hc10⟩, hc13⟩, hc0⟩
    obtain ⟨ys, z, hyz, hzs⟩ := utf8EncodeChar_last_not_strip c hsb
    rw [utf8Encode_append]
    have henc : utf8Encode [c] = utf8EncodeChar c ++ [] := rfl
    rw [henc, List.append_nil, hyz, ← List.append_assoc]
    rw [rstripBytes_concat_keep _ z hzs]
    rw [List.append_assoc, ← hyz, ← List.append_nil (utf8EncodeChar c), ← henc,
      ← utf8Encode_append]
    exact utf8Decode_encode _ hval

/-- Witness for c6_amended_name_roundtrip on the 4-character name "G?ME"
with a non-ASCII second character (U+00C9). -/
theorem c6_amended_name_roundtrip_witness :
    [71, 201, 77, 69].length ≤ 12 ∧
    parse_name (as_name [71, 201, 77, 69]) = some [71, 201, 77, 69] :=
  ⟨by decide, c6_amended_name_roundtrip [71, 201, 77, 69] (by decide) (by decide)
    (by decide) (by decide)⟩

/-- C6 counterexample: the 2-character name "A " (trailing ordinary space, no
NUL/TAB/LF/CR) does not round-trip: the stripping set of parse_name includes
the space byte, so decoding returns "A". -/
theorem c6_cex_trailing_space :
    parse_name (as_name [65, 32]) = some [65] ∧
    some [65] ≠ some ([65, 32] : List Nat) :=
  ⟨by decide, by decide⟩

/-- The file state a successful copy produces: the source payload written at
the destination payload region, then the full 16-byte source record (read
back from the payload-updated file) written at the destination record. -/
def cpState (f : File) (src dst : Nat) : File :=
  writeBytes
    (writeBytes f (8192 + dst * (200 * 1024))
      (readBytes f (8192 + src * (200 * 1024)) (200 * 1024)))
    (16 + dst * 16)
    (readBytes
      (writeBytes f (8192 + dst * (200 * 1024))
        (readBytes f (8192 + src * (200 * 1024)) (200 * 1024)))
      (16 + src * 16) 16)

theorem readBytes_congr {f g : File} (off1 off2 n : Nat)
    (hmin : min n (f.size - off1) = min n (g.size - off2))
    (hdata : ∀ k, k < min n (f.size - off1) → f.data (off1 + k) = g.data (off2 + k)) :
    readBytes f off1 n = readBytes g off2 n := by
  unfold readBytes
  rw [← hmin]
  exact List.map_congr_left (fun k hk => hdata k (List.mem_range.mp hk))

theorem cpState_mid_size (f : File) (src dst : Nat)
    (hsize : f.size = 8192 + 511 * (200 * 1024)) (hsrc : src < 511) (hdst : dst < 511) :
    (writeBytes f (8192 + dst * (200 * 1024))
      (readBytes f (8192 + src * (200 * 1024)) (200 * 1024))).size =
      8192 + 511 * (200 * 1024) := by
  have hlenPay : (readBytes f (8192 + src * (200 * 1024)) (200 * 1024)).length =
      200 * 1024 := readBytes_full_length f _ _ (by rw [hsize]; omega)
  rw [writeBytes_size, hlenPay, if_neg (by norm_num), hsize]
  omega

theorem cpState_size (f : File) (src dst : Nat)
    (hsize : f.size = 8192 + 511 * (200 * 1024)) (hsrc : src < 511) (hdst : dst < 511) :
    (cpState f src dst).size = 8192 + 511 * (200 * 1024) := by
  have hmid := cpState_mid_size f src dst hsize hsrc hdst
  have hlenRec : (readBytes (writeBytes f (8192 + dst * (200 * 1024))
      (readBytes f (8192 + src * (200 * 1024)) (200 * 1024))) (16 + src * 16) 16).length =
      16 := readBytes_full_length _ _ _ (by rw [hmid]; omega)
  unfold cpState
  rw [writeBytes_size, hlenRec, if_neg (by norm_num), hmid]
  omega

theorem cpState_mid_catalog (f : File) (src dst : Nat) (j : Nat) (hj : j < 8192) :
    (writeBytes f (8192 + dst * (200 * 1024))
      (readBytes f (8192 + src * (200 * 1024)) (200 * 1024))).data j = f.data j :=
  writeBytes_data_out _ f (8192 + dst * (200 * 1024)) j (by omega)

theorem cpState_payload (f : File) (src dst : Nat)
    (hsize : f.size = 8192 + 511 * (200 * 1024)) (hsrc : src < 511) (hdst : dst < 511)
    (k : Nat) (hk : k < 200 * 1024) :
    (cpState f src dst).data (8192 + dst * (200 * 1024) + k) =
      f.data (8192 + src * (200 * 1024) + k) := by
  have hlenPay : (readBytes f (8192 + src * (200 * 1024)) (200 * 1024)).length =
      200 * 1024 := readBytes_full_length f _ _ (by rw [hsize]; omega)
  unfold cpState
  rw [writeBytes_data_out _ _ (16 + dst * 16) (8192 + dst * (200 * 1024) + k)
    (by rw [readBytes_length]; omega)]
  rw [writeBytes_data_in _ f (8192 + dst * (200 * 1024)) k (by rw [hlenPay]; omega)]
  exact readBytes_getD f _ _ k (by rw [hsize]; omega)

theorem cpState_record (f : File) (src dst : Nat)
    (hsize : f.size = 8192 + 511 * (200 * 1024)) (hsrc : src < 511) (hdst : dst < 511)
    (k : Nat) (hk : k < 16) :
    (cpState f src dst).data (16 + dst * 16 + k) = f.data (16 + src * 16 + k) := by
  have hmid := cpState_mid_size f src dst hsize hsrc hdst
  have hlenRec : (readBytes (writeBytes f (8192 + dst * (200 * 1024))
      (readBytes f (8192 + src * (200 * 1024)) (200 * 1024))) (16 + src * 16) 16).length =
      16 := readBytes_full_length _ _ _ (by rw [hmid]; omega)
  unfold cpState
  rw [writeBytes_data_in _ _ (16 + dst * 16) k (by rw [hlenRec]; omega)]
  rw [readBytes_getD _ _ _ k (by rw [hmid]; omega)]
  exact cpState_mid_catalog f src dst (16 + src * 16 + k) (by omega)

theorem cpState_other_catalog (f : File) (src dst : Nat) (j : Nat) (hj : j < 8192)
    (hout : j < 16 + dst * 16 ∨ 16 + dst * 16 + 16 ≤ j) :
    (cpState f src dst).data j = f.data j := by
  unfold cpState
  have hside : j < 16 + dst * 16 ∨
      16 + dst * 16 + (readBytes (writeBytes f (8192 + dst * (200 * 1024))
        (readBytes f (8192 + src * (200 * 1024)) (200 * 1024)))
        (16 + src * 16) 16).length ≤ j := by
    rw [readBytes_length]
    rcases hout with h | h
    · left; omega
    · right; omega
  rw [writeBytes_data_out _ _ (16 + dst * 16) j hside]
  exact cpState_mid_catalog f src dst j hj

theorem catalogOK_iff_fields (f : File) (h8 : 8192 ≤ f.size) :
    catalogOK f ↔ ∀ k, k < 511 →
      (parse_name (readBytes f (16 + k * 16) 12)).isSome = true := by
  rw [catalogOK, read_catalog, if_pos h8, read_entries_isSome]
  constructor
  · intro h k hk
    simpa using h k hk
  · intro h k hk
    simpa using h k hk

theorem action_cp_locked_ok (f : File) (src dst : Nat) (cat : List Disk)
    (hc : read_catalog f = some cat) (hsrc : src < 511) (hdst : dst < 511)
    (hss : slotStatus f src = Status.READONLY)
    (hds : slotStatus f dst = Status.UNFORMATTED) :
    action_cp f src dst false = (cpState f src dst, none) := by
  obtain ⟨nmS, hgs⟩ := read_catalog_get? hc hsrc
  obtain ⟨nmD, hgd⟩ := read_catalog_get? hc hdst
  rw [hss] at hgs
  rw [hds] at hgd
  simp only [action_cp, hc, hgs, hgd]
  rw [if_neg (by simp [is_formatted]), if_neg (by simp [is_formatted])]
  rfl

theorem cpState_catalogOK (f : File) (src dst : Nat)
    (hsize : f.size = 8192 + 511 * (200 * 1024)) (hcat : catalogOK f)
    (hsrc : src < 511) (hdst : dst < 511) :
    catalogOK (cpState f src dst) := by
  have hsz := cpState_size f src dst hsize hsrc hdst
  have h8f : (8192 : Nat) ≤ f.size := by rw [hsize]; omega
  have h8 : (8192 : Nat) ≤ (cpState f src dst).size := by rw [hsz]; omega
  rw [catalogOK_iff_fields _ h8]
  rw [catalogOK_iff_fields _ h8f] at hcat
  intro k hk
  by_cases hkd : k = dst
  · rw [hkd]
    have heq : readBytes (cpState f src dst) (16 + dst * 16) 12 =
        readBytes f (16 + src * 16) 12 := by
      apply readBytes_congr
      · rw [hsz, hsize]
        omega
      · intro j hj
        rw [hsz] at hj
        exact cpState_record f src dst hsize hsrc hdst j (by omega)
    rw [heq]
    exact hcat src hsrc
  · have heq : readBytes (cpState f src dst) (16 + k * 16) 12 =
        readBytes f (16 + k * 16) 12 := by
      apply readBytes_congr
      · rw [hsz, hsize]
      · intro j hj
        rw [hsz] at hj
        apply cpState_other_catalog f src dst (16 + k * 16 + j) (by omega)
        omega
    rw [heq]
    exact hcat k hk

/-- All conclusions about copy and move of a Locked source to an Empty
destination, shared by the claim theorem and its counterexample. -/
theorem cp_mv_locked_core (f : File) (src dst : Nat)
    (hsize : f.size = 8192 + 511 * (200 * 1024))
    (hcat : catalogOK f) (hsrc : src < 511) (hdst : dst < 511)
    (hss : slotStatus f src = Status.READONLY)
    (hds : slotStatus f dst = Status.UNFORMATTED) :
    (action_cp f src dst false).2 = none ∧
    (∀ k, k < 200 * 1024 →
      (action_cp f src dst false).1.data (8192 + dst * (200 * 1024) + k) =
        f.data (8192 + src * (200 * 1024) + k)) ∧
    (∀ k, k < 16 →
      (action_cp f src dst false).1.data (16 + dst * 16 + k) =
        f.data (16 + src * 16 + k)) ∧
    slotStatus (action_cp f src dst false).1 dst = Status.READONLY ∧
    (action_mv f src dst false).1 = (action_cp f src dst false).1 ∧
    (action_mv f src dst false).2 = some (Err.diskIs src Status.READONLY) ∧
    slotStatus (action_mv f src dst false).1 src = Status.READONLY := by
  have hne : src ≠ dst := by
    intro h
    rw [h, hds] at hss
    cases hss
  obtain ⟨cat, hc⟩ := catalogOK_elim hcat
  have hcp := action_cp_locked_ok f src dst cat hc hsrc hdst hss hds
  have hsrcStable : slotStatus (cpState f src dst) src = Status.READONLY := by
    rw [slotStatus, cpState_other_catalog f src dst (16 + src * 16 + 15) (by omega)
      (by omega)]
    exact hss
  have hcatCp := cpState_catalogOK f src dst hsize hcat hsrc hdst
  obtain ⟨cat2, hc2⟩ := catalogOK_elim hcatCp
  obtain ⟨nm2, hg2⟩ := read_catalog_get? hc2 hsrc
  rw [hsrcStable] at hg2
  have hrm : action_rm (cpState f src dst) [src] =
      (cpState f src dst, some (.diskIs src Status.READONLY)) := by
    simp only [action_rm, visit, hc2]
    have h2 := visitGo_marks_fail cat2 Status.READWRITE Status.UNFORMATTED [] src []
      (cpState f src dst) _ (by intro x hx; simp at hx) hg2 (by intro hcon; cases hcon)
    simpa [applyMarks] using h2
  have hmv : action_mv f src dst false =
      (cpState f src dst, some (.diskIs src Status.READONLY)) := by
    simp only [action_mv, hcp]
    exact hrm
  rw [hcp, hmv]
  refine ⟨rfl, ?_, ?_, ?_, rfl, rfl, hsrcStable⟩
  · intro k hk
    exact cpState_payload f src dst hsize hsrc hdst k hk
  · intro k hk
    exact cpState_record f src dst hsize hsrc hdst k hk
  · rw [slotStatus, cpState_record f src dst hsize hsrc hdst 15 (by omega)]
    exact hss

/-- C3 (amended): in a full-size container whose catalog parses, copying a
Locked source slot to an Empty destination succeeds and the destination's
200 KiB payload and full 16-byte record become byte-identical to the
source's, so the destination reports Locked with the source's name.  Move
performs that same copy but then FAILS deleting the source — delete requires
Unlocked — so it raises the disk-status error and leaves the source still
Locked (not Empty), with the destination already written. -/
theorem c3_amended_copy_move (f : File) (src dst : Nat)
    (hsize : f.size = 8192 + 511 * (200 * 1024))
    (hcat : catalogOK f) (hsrc : src < 511) (hdst : dst < 511)
    (hss : slotStatus f src = Status.READONLY)
    (hds : slotStatus f dst = Status.UNFORMATTED) :
    (action_cp f src dst false).2 = none ∧
    (∀ k, k < 200 * 1024 →
      (action_cp f src dst false).1.data (8192 + dst * (200 * 1024) + k) =
        f.data (8192 + src * (200 * 1024) + k)) ∧
    (∀ k, k < 16 →
      (action_cp f src dst false).1.data (16 + dst * 16 + k) =
        f.data (16 + src * 16 + k)) ∧
    slotStatus (action_cp f src dst false).1 dst = Status.READONLY ∧
    (action_mv f src dst false).1 = (action_cp f src dst false).1 ∧
    (action_mv f src dst false).2 = some (Err.diskIs src Status.READONLY) ∧
    slotStatus (action_mv f src dst false).1 src = Status.READONLY :=
  cp_mv_locked_core f src dst hsize hcat hsrc hdst hss hds

/-- Witness for c3_amended_copy_move: slot 10 Locked, slot 20 Empty in a
concrete full-size container. -/
theorem c3_amended_copy_move_witness :
    lockedSrcContainer.size = 8192 + 511 * (200 * 1024) ∧
    catalogOK lockedSrcContainer ∧
    slotStatus lockedSrcContainer 10 = Status.READONLY ∧
    slotStatus lockedSrcContainer 20 = Status.UNFORMATTED ∧
    (action_cp lockedSrcContainer 10 20 false).2 = none ∧
    (action_cp lockedSrcContainer 10 20 false).1.data (8192 + 20 * (200 * 1024) + 7) =
      lockedSrcContainer.data (8192 + 10 * (200 * 1024) + 7) ∧
    slotStatus (action_cp lockedSrcContainer 10 20 false).1 20 = Status.READONLY ∧
    (action_mv lockedSrcContainer 10 20 false).2 =
      some (Err.diskIs 10 Status.READONLY) := by
  have h := c3_amended_copy_move lockedSrcContainer 10 20 rfl
    catalogOK_lockedSrcContainer (by omega) (by omega) (by decide) (by decide)
  refine ⟨rfl, catalogOK_lockedSrcContainer, by decide, by decide, h.1, ?_, h.2.2.2.1,
    h.2.2.2.2.2.1⟩
  exact h.2.1 7 (by omega)

/-- C3 counterexample: on a container whose slot 10 is Locked and slot 20
Empty, move does NOT leave slot 10 Empty: it raises an error after the copy
and slot 10 still decodes as Locked, refuting the claim that move yields the
copied destination AND an Empty source. -/
theorem c3_cex_move_locked_src_not_emptied :
    slotStatus lockedSrcContainer 10 = Status.READONLY ∧
    slotStatus lockedSrcContainer 20 = Status.UNFORMATTED ∧
    (action_mv lockedSrcContainer 10 20 false).2 ≠ none ∧
    slotStatus (action_mv lockedSrcContainer 10 20 false).1 10 = Status.READONLY ∧
    Status.READONLY ≠ Status.UNFORMATTED := by
  have h := cp_mv_locked_core lockedSrcContainer 10 20 rfl
    catalogOK_lockedSrcContainer (by omega) (by omega) (by decide) (by decide)
  refine ⟨by decide, by decide, ?_, h.2.2.2.2.2.2, by decide⟩
  rw [h.2.2.2.2.2.1]
  simp

/-- The status-byte invariant: every one of the 511 catalog status bytes is a
canonical value this tool writes. -/
def statusInv (f : File) : Prop :=
  ∀ i, i < 511 → f.data (16 + i * 16 + 15) = 0 ∨ f.data (16 + i * 16 + 15) = 15 ∨
    f.data (16 + i * 16 + 15) = 240

theorem writeBytes_statusInv (f : File) (off : Nat) (bs : List Nat)
    (hinv : statusInv f)
    (hbs : ∀ i k, i < 511 → k < bs.length → off + k = 16 + i * 16 + 15 →
      bs.getD k 0 = 0 ∨ bs.getD k 0 = 15 ∨ bs.getD k 0 = 240) :
    statusInv (writeBytes f off bs) := by
  intro i hi
  by_cases hin : off ≤ 16 + i * 16 + 15 ∧ 16 + i * 16 + 15 < off + bs.length
  · obtain ⟨hin1, hin2⟩ := hin
    have hk : 16 + i * 16 + 15 = off + (16 + i * 16 + 15 - off) := by omega
    rw [hk, writeBytes_data_in bs f off _ (by omega)]
    exact hbs i _ hi (by omega) (by omega)
  · rw [writeBytes_data_out bs f off _ (by omega)]
    exact hinv i hi

theorem statusInv_nwFile : statusInv nwFile := by
  intro i hi
  right; right
  exact nwFile_data_status i hi

theorem action_dd_statusInv (f : File) (d0 d1 d2 d3 : Nat) (hf : statusInv f) :
    statusInv (action_dd f d0 d1 d2 d3).1 := by
  unfold action_dd
  by_cases h : d0 ≠ d1 ∧ d0 ≠ d2 ∧ d0 ≠ d3 ∧ d1 ≠ d2 ∧ d1 ≠ d3 ∧ d2 ≠ d3
  · rw [if_pos h]
    apply writeBytes_statusInv _ _ _ hf
    intro i k hi hk heq
    simp only [List.length_cons, List.length_nil] at hk
    exact absurd heq (by omega)
  · rw [if_neg h]
    exact hf

theorem mk_marker_statusInv (st : Status) (hst : st ≠ Status.INVALID) :
    ∀ i (g : File), statusInv g → statusInv (mk_marker st i g) := by
  intro i g hg
  unfold mk_marker
  apply writeBytes_statusInv _ _ _ hg
  intro i2 k hi2 hk heq
  simp only [List.length_cons, List.length_nil] at hk
  have hk0 : k = 0 := by omega
  subst hk0
  cases st with
  | INVALID => exact absurd rfl hst
  | READONLY => left; rfl
  | READWRITE => right; left; rfl
  | UNFORMATTED => right; right; rfl

theorem visitGo_statusInv (cat : List Disk) (assertion : Nat → Disk → Option Err)
    (action : Nat → File → File)
    (hact : ∀ i (g : File), statusInv g → statusInv (action i g)) :
    ∀ (idxs : List Nat) (g : File), statusInv g →
      statusInv (visitGo cat assertion action g idxs).1 := by
  intro idxs
  induction idxs with
  | nil => intro g hg; exact hg
  | cons i rest ih =>
    intro g hg
    cases hget : cat.get? i with
    | none => simp only [visitGo, hget]; exact hg
    | some d =>
      cases hass : assertion i d with
      | some e => simp only [visitGo, hget, hass]; exact hg
      | none =>
        simp only [visitGo, hget, hass]
        exact ih (action i g) (hact i g hg)

theorem visit_statusInv (f : File) (idxs : List Nat)
    (assertion : Nat → Disk → Option Err) (action : Nat → File → File)
    (hact : ∀ i (g : File), statusInv g → statusInv (action i g))
    (hf : statusInv f) : statusInv (visit f idxs assertion action).1 := by
  cases hc : read_catalog f with
  | none => simp only [visit, hc]; exact hf
  | some cat =>
    simp only [visit, hc]
    exact visitGo_statusInv cat assertion action hact idxs f hf

theorem action_rm_statusInv (f : File) (idxs : List Nat) (hf : statusInv f) :
    statusInv (action_rm f idxs).1 :=
  visit_statusInv f idxs _ _ (mk_marker_statusInv Status.UNFORMATTED (by decide)) hf

theorem action_un_statusInv (f : File) (idxs : List Nat) (hf : statusInv f) :
    statusInv (action_un f idxs).1 :=
  visit_statusInv f idxs _ _ (mk_marker_statusInv Status.READWRITE (by decide)) hf

theorem action_ro_statusInv (f : File) (idxs : List Nat) (hf : statusInv f) :
    statusInv (action_ro f idxs).1 :=
  visit_statusInv f idxs _ _ (mk_marker_statusInv Status.READONLY (by decide)) hf

theorem action_rw_statusInv (f : File) (idxs : List Nat) (hf : statusInv f) :
    statusInv (action_rw f idxs).1 :=
  visit_statusInv f idxs _ _ (mk_marker_statusInv Status.READWRITE (by decide)) hf

theorem action_rn_statusInv (f : File) (i : Nat) (name : List Nat)
    (hascii : ∀ c ∈ name, c < 128) (hf : statusInv f) :
    statusInv (action_rn f i name).1 := by
  apply visit_statusInv f [i] _ _ ?hact hf
  intro i2 g hg
  apply writeBytes_statusInv _ _ _ hg
  intro i3 k hi3 hk heq
  rw [as_name_length_ascii name hascii] at hk
  exact absurd heq (by omega)

theorem im_writes_statusInv (f : File) (i : Nat) (name : List Nat) (ro : Bool)
    (ssd : List Nat) (hascii : ∀ c ∈ name, c < 128) (hf : statusInv f) :
    statusInv (applyWrites f (im_writes i name ro ssd)) := by
  have hlen := as_name_length_ascii name hascii
  simp only [applyWrites, im_writes, List.foldl]
  apply writeBytes_statusInv
  · apply writeBytes_statusInv
    · apply writeBytes_statusInv
      · apply writeBytes_statusInv _ _ _ hf
        intro i2 k hi2 hk heq
        rw [hlen] at hk
        exact absurd heq (by omega)
      · intro i2 k hi2 hk heq
        simp only [List.length_cons, List.length_nil] at hk
        rw [hlen] at heq
        exact absurd heq (by omega)
    · intro i2 k hi2 hk heq
      simp only [List.length_cons, List.length_nil] at hk
      have hk0 : k = 0 := by omega
      subst hk0
      cases ro
      · right; left; rfl
      · left; rfl
  · intro i2 k hi2 hk heq
    exact absurd heq (by omega)

theorem action_im_statusInv_some (f : File) (cat : List Disk)
    (hc : read_catalog f = some cat) (i : Nat) (ssd : List Nat)
    (name : Option (List Nat)) (dn : List Nat) (ro fo : Bool)
    (hascii : ∀ c ∈ name.getD dn, c < 128) (hf : statusInv f) :
    statusInv (action_im f (some i) ssd name dn ro fo).1 := by
  simp only [action_im, hc]
  by_cases h0 : ssd.length = 0
  · rw [if_pos h0]; exact hf
  · rw [if_neg h0]
    by_cases hL : 200 * 1024 < ssd.length
    · rw [if_pos hL]; exact hf
    · rw [if_neg hL]
      cases hget : cat.get? i with
      | none => simp only [hget]; exact hf
      | some d =>
        simp only [hget]
        by_cases hocc : (is_formatted d && !fo) = true
        · rw [if_pos hocc]; exact hf
        · rw [if_neg hocc]
          exact im_writes_statusInv f i (name.getD dn) ro ssd hascii hf

theorem action_im_statusInv (f : File) (idx : Option Nat) (ssd : List Nat)
    (name : Option (List Nat)) (dn : List Nat) (ro fo : Bool)
    (hascii : ∀ c ∈ name.getD dn, c < 128) (hf : statusInv f) :
    statusInv (action_im f idx ssd name dn ro fo).1 := by
  cases hc : read_catalog f with
  | none => simp only [action_im, hc]; exact hf
  | some cat =>
    cases idx with
    | some i => exact action_im_statusInv_some f cat hc i ssd name dn ro fo hascii hf
    | none =>
      cases hfil : (List.range 511).filter
          (fun i => ! is_formatted (cat.getD i ⟨[], .INVALID⟩)) with
      | nil => simp only [action_im, hc, hfil]; exact hf
      | cons i0 rest =>
        rw [action_im_auto_eq f cat hc i0 rest hfil ssd name dn ro fo]
        exact action_im_statusInv_some f cat hc i0 ssd name dn ro fo hascii hf

theorem action_cp_statusInv (f : File) (src dst : Nat) (fo : Bool) (hf : statusInv f) :
    statusInv (action_cp f src dst fo).1 := by
  cases hc : read_catalog f with
  | none => simp only [action_cp, hc]; exact hf
  | some cat =>
    cases hgs : cat.get? src with
    | none => simp only [action_cp, hc, hgs]; exact hf
    | some dsrc =>
      simp only [action_cp, hc, hgs]
      by_cases h1 : (! is_formatted dsrc) = true
      · rw [if_pos h1]; exact hf
      · rw [if_neg h1]
        cases hgd : cat.get? dst with
        | none => simp only [hgd]; exact hf
        | some ddst =>
          simp only [hgd]
          by_cases h2 : (is_formatted ddst && !fo) = true
          · rw [if_pos h2]; exact hf
          · rw [if_neg h2]
            have hsrc511 : src < 511 := by
              by_contra hge
              rw [read_catalog_get?_none hc (by omega)] at hgs
              cases hgs
            apply writeBytes_statusInv
            · apply writeBytes_statusInv _ _ _ hf
              intro i2 k hi2 hk heq
              exact absurd heq (by omega)
            · intro i2 k hi2 hk heq
              rw [readBytes_length] at hk
              have hk15 : k = 15 := by omega
              subst hk15
              rw [readBytes_getD _ _ _ 15 (by omega)]
              rw [writeBytes_data_out _ f (8192 + dst * (200 * 1024))
                (16 + src * 16 + 15) (by omega)]
              exact hf src hsrc511

theorem action_mv_statusInv (f : File) (src dst : Nat) (fo : Bool) (hf : statusInv f) :
    statusInv (action_mv f src dst fo).1 := by
  have hcp := action_cp_statusInv f src dst fo hf
  cases hres : action_cp f src dst fo with
  | mk g e =>
    rw [hres] at hcp
    cases e with
    | none =>
      simp only [action_mv, hres]
      exact action_rm_statusInv g [src] hcp
    | some err =>
      simp only [action_mv, hres]
      exact hcp

/-- C4 (amended): for every container state reachable from a fresh container
through the tool's operations with names restricted to single-byte (ASCII)
characters, every one of the 511 catalog status bytes is one of 0x00, 0x0F,
0xF0, and hence decodes to Locked, Unlocked or Empty.  The ASCII restriction
is forced: with a multi-byte name the encoded name spills over the status
byte (see the counterexample), depositing a UTF-8 byte outside that set. -/
theorem c4_amended_status_invariant (f : File) (hreach : Reachable f) :
    ∀ i, i < 511 →
      (f.data (16 + i * 16 + 15) = 0 ∨ f.data (16 + i * 16 + 15) = 15 ∨
        f.data (16 + i * 16 + 15) = 240) ∧
      (slotStatus f i = Status.READONLY ∨ slotStatus f i = Status.READWRITE ∨
        slotStatus f i = Status.UNFORMATTED) := by
  have hinv : statusInv f := by
    induction hreach with
    | nw => exact statusInv_nwFile
    | dd f d0 d1 d2 d3 _ ih => exact action_dd_statusInv f d0 d1 d2 d3 ih
    | rm f idxs _ ih => exact action_rm_statusInv f idxs ih
    | un f idxs _ ih => exact action_un_statusInv f idxs ih
    | ro f idxs _ ih => exact action_ro_statusInv f idxs ih
    | rw f idxs _ ih => exact action_rw_statusInv f idxs ih
    | rn f i name h _ ih => exact action_rn_statusInv f i name h ih
    | im f idx ssd name dn ro fo h _ ih => exact action_im_statusInv f idx ssd name dn ro fo h ih
    | cp f src dst fo _ ih => exact action_cp_statusInv f src dst fo ih
    | mv f src dst fo _ ih => exact action_mv_statusInv f src dst fo ih
    | ex f idxs fo _ ih => exact ih
  intro i hi
  refine ⟨hinv i hi, ?_⟩
  rcases hinv i hi with h | h | h
  · left
    rw [slotStatus, h]
    rfl
  · right; left
    rw [slotStatus, h]
    rfl
  · right; right
    rw [slotStatus, h]
    rfl

/-- Witness for c4_amended_status_invariant: the fresh container itself,
slot 0. -/
theorem c4_amended_status_invariant_witness :
    (nwFile.data (16 + 0 * 16 + 15) = 0 ∨ nwFile.data (16 + 0 * 16 + 15) = 15 ∨
      nwFile.data (16 + 0 * 16 + 15) = 240) ∧
    (slotStatus nwFile 0 = Status.READONLY ∨ slotStatus nwFile 0 = Status.READWRITE ∨
      slotStatus nwFile 0 = Status.UNFORMATTED) :=
  c4_amended_status_invariant nwFile Reachable.nw 0 (by omega)

/-- C4 counterexample: one import into a fresh container with the
12-character name made of twelve copies of U+00E9 succeeds and leaves slot
0's status byte equal to 0xA9 — a byte of the encoded name, outside
{0x00, 0x0F, 0xF0} — refuting the claim that every status byte the tool
writes is one of those three values. -/
theorem c4_cex_import_multibyte_name_corrupts_status :
    (action_im nwFile (some 0) [1] (some (List.replicate 12 233))
      (List.replicate 12 233) false false).2 = none ∧
    (action_im nwFile (some 0) [1] (some (List.replicate 12 233))
      (List.replicate 12 233) false false).1.data (16 + 0 * 16 + 15) = 169 ∧
    ¬ ((169 : Nat) = 0 ∨ (169 : Nat) = 15 ∨ (169 : Nat) = 240) := by
  obtain ⟨cat, hc⟩ := catalogOK_elim catalogOK_nw
  obtain ⟨nm, hget⟩ := read_catalog_get? hc (show 0 < 511 by omega)
  have hst : slotStatus nwFile 0 = Status.UNFORMATTED := by
    rw [slotStatus, nwFile_data_status 0 (by omega)]
    rfl
  rw [hst] at hget
  have hsucc := action_im_success nwFile cat 0 [1] (some (List.replicate 12 233))
    (List.replicate 12 233) false false hc ⟨nm, Status.UNFORMATTED⟩ hget
    (by simp [is_formatted]) (by decide) (by decide)
  rw [hsucc]
  refine ⟨rfl, ?_, by decide⟩
  have hlen24 : (as_name (List.replicate 12 233)).length = 24 := by decide
  simp only [Option.getD_some, applyWrites, im_writes, List.foldl]
  rw [writeBytes_data_out [1] _ (8192 + 0 * (200 * 1024)) (16 + 0 * 16 + 15)
    (by simp only [List.length_cons, List.length_nil]; omega)]
  rw [writeBytes_data_out [if false then 0 else 15] _
    (16 + 0 * 16 + (as_name (List.replicate 12 233)).length + 3) (16 + 0 * 16 + 15)
    (by rw [hlen24]; simp only [List.length_cons, List.length_nil]; omega)]
  rw [writeBytes_data_out [0, 0, 0] _
    (16 + 0 * 16 + (as_name (List.replicate 12 233)).length) (16 + 0 * 16 + 15)
    (by rw [hlen24]; simp only [List.length_cons, List.length_nil]; omega)]
  rw [writeBytes_data_in (as_name (List.replicate 12 233)) nwFile (16 + 0 * 16) 15
    (by rw [hlen24]; omega)]
  decide

/-- Witness for c5_as_name_not_12_bytes: the ASCII conjunct applied at the
one-character name "A". -/
theorem c5_as_name_not_12_bytes_witness :
    (∀ c ∈ [65], c < 128) ∧ (as_name [65]).length = 12 :=
  ⟨by decide, c5_as_name_not_12_bytes.2.2.2 [65] (by decide)⟩

/-- Witness for c8_amended_size_checks: import of an empty source at explicit
index 3 of a concrete container. -/
theorem c8_amended_size_checks_witness :
    catalogOK emptyContainer ∧
    ((action_im emptyContainer (some 3) [] none [] false false).2 = some Err.ssdEmpty ↔
      ([] : List Nat).length = 0) ∧
    (([] : List Nat).length = 0 ∨ 200 * 1024 < ([] : List Nat).length →
      (action_im emptyContainer (some 3) [] none [] false false).1 = emptyContainer) := by
  have h := c8_amended_size_checks emptyContainer (some 3) [] none [] false false
    catalogOK_emptyContainer (by intro hcon; simp at hcon)
  exact ⟨catalogOK_emptyContainer, h.1, h.2.2⟩

/-- Witness for c9_index_511_accepted_then_crashes: the crash instance at a
concrete container. -/
theorem c9_index_511_accepted_then_crashes_witness :
    action_rm emptyContainer [511] = (emptyContainer, some Err.pyCrash) :=
  c9_index_511_accepted_then_crashes.2.2.2 emptyContainer

end MMB
